import Mathlib

/-!
# Verification of the `py_utils` monitor abstraction

Shallow embedding of `src/py_utils/stats.py` (classes `BaseMonitor`,
`CpuCoresMonitor`, `ProcessCpuMonitor`) and of the identical smoothing loop of
`GlobalCpuMonitor` in `src/py_utils/process.py`.  Sample values are modelled as
rationals; `collections.deque(maxlen=n)` is modelled by `BDeque`; the polling
loop is driven by a finite trace of iteration inputs (one entry per pass
through the `while` body, recording the raw samples returned by `psutil` and
whether `stop()` was called during the blocking wait of that pass).
-/

namespace PyUtils
/-- The last `n` elements of a list (the contents of a `deque(maxlen=n)` after
all elements of the list have been appended in order). -/
def lastN (n : ℕ) (l : List α) : List α := l.drop (l.length - n)

/-- Model of a Python `collections.deque` created with `maxlen = maxlen`:
its `data` are the retained elements, oldest first. -/
structure BDeque (α : Type) where
  maxlen : ℕ
  data : List α
  deriving Repr, DecidableEq

/-- `collections.deque(maxlen=n)`: a fresh, empty bounded deque. -/
def BDeque.empty (n : ℕ) : BDeque α := ⟨n, []⟩

/-- `deque.append(x)`: appends on the right, discarding from the left when the
deque is at capacity. -/
def BDeque.append (d : BDeque α) (x : α) : BDeque α :=
  ⟨d.maxlen, lastN d.maxlen (d.data ++ [x])⟩

/-- `deque.extend(xs)`: repeated `append`. -/
def BDeque.extend (d : BDeque α) (xs : List α) : BDeque α :=
  xs.foldl BDeque.append d

/-- Arithmetic mean of a list of rationals, as computed by
`sum(xs) / len(xs)` in the Python source. -/
def listMean (l : List ℚ) : ℚ := l.sum / (l.length : ℚ)

/-- Mean of the retained elements of a deque:
`sum(self._history) / len(self._history)`. -/
def BDeque.mean (d : BDeque ℚ) : ℚ := listMean d.data

/-- Python 3 `round` on a rational: round half to even (banker's rounding). -/
def pythonRound (q : ℚ) : ℤ :=
  if q - ⌊q⌋ < 1/2 then ⌊q⌋
  else if q - ⌊q⌋ > 1/2 then ⌊q⌋ + 1
  else if ⌊q⌋ % 2 = 0 then ⌊q⌋ else ⌊q⌋ + 1

/-- `max(1, round(smoothing_duration_s / self.interval))`, the number of raw
samples covering the smoothing duration (`CpuCoresMonitor.__init__`). -/
def smoothWindow (smoothing_duration_s interval : ℚ) : ℕ :=
  max 1 (pythonRound (smoothing_duration_s / interval)).toNat

/-- The `MonitorEvent` enum of `stats.py`. -/
inductive MonitorEvent
  | STARTED
  | UPDATED
  | FINISHED
  deriving Repr, DecidableEq

/-- Python `str.upper` on a single character, for the ASCII range (the
`MonitorEvent` member names are ASCII). -/
def asciiUpperChar (c : Char) : Char :=
  if 'a' ≤ c ∧ c ≤ 'z' then Char.ofNat (c.toNat - 32) else c

/-- Python `event_type.upper()` (ASCII model of `str.upper`). -/
def asciiUpper (s : String) : String := String.mk (s.data.map asciiUpperChar)

/-- Python `MonitorEvent[name]`: enum member lookup by exact member name. -/
def MonitorEvent.fromName : String → Option MonitorEvent
  | "STARTED" => some .STARTED
  | "UPDATED" => some .UPDATED
  | "FINISHED" => some .FINISHED
  | _ => none

/-- `BaseMonitor.add_handler_on` for a string event name, acting on the
handler table (handlers identified by numeric ids).  Mirrors the source: the
name is upper-cased and looked up in the enum; a failed lookup raises
`ValueError` (returned as `some msg`) before any mutation; on success the
handler is appended to that event's list (`self._handlers[event_type].append`).
The membership test `event_type not in self._handlers` is always false after a
successful lookup, because `__init__` populates the dict with every member. -/
def addHandlerOn (hs : MonitorEvent → List ℕ) (s : String) (h : ℕ) :
    (MonitorEvent → List ℕ) × Option String :=
  match MonitorEvent.fromName (asciiUpper s) with
  | none => (hs, some ("Type d\x27événement non supporté: " ++ s))
  | some ev => ((fun e => if e = ev then hs e ++ [h] else hs e), none)

/-- The history bookkeeping of `BaseMonitor._apply_handlers_on`: when the
event is `UPDATED` and history is enabled, the emitted payload is appended to
the bounded history deque; otherwise the history is untouched. -/
def applyHistory (history : Option (BDeque α)) (ev : MonitorEvent) (payload : α) :
    Option (BDeque α) :=
  match ev, history with
  | .UPDATED, some hd => some (hd.append payload)
  | _, h => h

/-- The history deque created by `BaseMonitor.__init__`:
`deque(maxlen=history_length) if history_length > 0 else None`. -/
def initHistory (history_length : ℕ) : Option (BDeque α) :=
  if history_length > 0 then some (BDeque.empty history_length) else none

/-- State of a `CpuCoresMonitor` (`stats.py`), also covering
`GlobalCpuMonitor` of `process.py` (same fields with `history = none`). -/
structure CpuCoresMonitor where
  interval : ℚ
  historyLength : ℕ
  smoothingWindow : ℕ
  globalHistory : BDeque ℚ
  perCpuHistory : List (BDeque ℚ)
  history : Option (BDeque (ℚ × List ℚ))
  isRunning : Bool
  deriving Repr, DecidableEq

/-- `CpuCoresMonitor.__init__(interval, smoothing_duration_s, history_length)`. -/
def CpuCoresMonitor.init (interval smoothing_duration_s : ℚ) (history_length : ℕ) :
    CpuCoresMonitor :=
  let w := smoothWindow smoothing_duration_s interval
  { interval := interval
    historyLength := history_length
    smoothingWindow := w
    globalHistory := BDeque.empty w
    perCpuHistory := []
    history := initHistory history_length
    isRunning := false }

/-- `GlobalCpuMonitor.__init__` of `process.py`: the same constructor without
a history buffer (its `BaseMonitor` keeps no history, which coincides with
`history_length = 0`). -/
def GlobalCpuMonitor.init (interval smoothing_duration_s : ℚ) : CpuCoresMonitor :=
  CpuCoresMonitor.init interval smoothing_duration_s 0

/-- `CpuCoresMonitor._setup()`, with `num_cores = psutil.cpu_count()` passed
as a parameter: pre-fills the smoothing deques with zeros, creates the
per-core deques, emits `STARTED` (which leaves the history untouched) and
pre-fills the main history with the zero padding element. -/
def CpuCoresMonitor.setup (m : CpuCoresMonitor) (numCores : ℕ) : CpuCoresMonitor :=
  let gh := m.globalHistory.extend (List.replicate m.smoothingWindow 0)
  let pch := (List.replicate numCores (BDeque.empty (α := ℚ) m.smoothingWindow)).map
    (fun d => d.extend (List.replicate m.smoothingWindow 0))
  let hist := applyHistory m.history .STARTED ((0 : ℚ), ([] : List ℚ))
  let hist := match hist with
    | some hd => some (hd.extend
        (List.replicate m.historyLength ((0 : ℚ), List.replicate numCores (0 : ℚ))))
    | none => none
  { m with globalHistory := gh, perCpuHistory := pch, history := hist }

/-- One pass of `CpuCoresMonitor._run_loop`'s `while` body, as seen from the
outside: the raw samples `psutil` returns on that pass, and whether `stop()`
was called during the `time.sleep(self.interval)` of that pass. -/
structure CpuIter where
  stopDuringSleep : Bool
  rawGlobal : ℚ
  rawPerCpu : List ℚ
  deriving Repr, DecidableEq

/-- Events observable from a `CpuCoresMonitor` run. -/
inductive CpuEvent
  | started
  | updated (g : ℚ) (per : List ℚ)
  | finished (success : Bool) (msg : String)
  deriving Repr, DecidableEq

/-- `for i, core_val in enumerate(raw_per_cpu): if i < len(self._per_cpu_history):
self._per_cpu_history[i].append(core_val)` — cores beyond the raw list keep
their deque, raw values beyond the deque list are dropped. -/
def updatePerCpu (hs : List (BDeque ℚ)) (raws : List ℚ) : List (BDeque ℚ) :=
  List.zipWith BDeque.append hs raws ++ hs.drop raws.length

/-- One iteration of `CpuCoresMonitor._run_loop`: check the running flag,
sleep (during which `stop()` may land), re-check the flag, then sample,
update the smoothing deques, compute the means and emit `UPDATED`.
Returns the new state, the emitted events, and whether the loop continues. -/
def CpuCoresMonitor.loopIter (m : CpuCoresMonitor) (it : CpuIter) :
    CpuCoresMonitor × List CpuEvent × Bool :=
  if !m.isRunning then (m, [], false)
  else
    let m1 := if it.stopDuringSleep then { m with isRunning := false } else m
    if !m1.isRunning then (m1, [], false)
    else
      let gh := m1.globalHistory.append it.rawGlobal
      let pch := updatePerCpu m1.perCpuHistory it.rawPerCpu
      let smoothedGlobal := gh.mean
      let smoothedPerCpu := pch.map BDeque.mean
      let hist := applyHistory m1.history .UPDATED (smoothedGlobal, smoothedPerCpu)
      ({ m1 with globalHistory := gh, perCpuHistory := pch, history := hist },
        [CpuEvent.updated smoothedGlobal smoothedPerCpu], true)

/-- `CpuCoresMonitor._run_loop` over a finite trace of iteration inputs.
The final `Bool` records whether the loop terminated within the trace
(`true`) or ran out of trace while still polling (`false`). -/
def CpuCoresMonitor.runLoop (m : CpuCoresMonitor) :
    List CpuIter → CpuCoresMonitor × List CpuEvent × Bool
  | [] => if m.isRunning then (m, [], false) else (m, [], true)
  | it :: rest =>
    let s := m.loopIter it
    if s.2.2 then
      let r := s.1.runLoop rest
      (r.1, s.2.1 ++ r.2.1, r.2.2)
    else (s.1, s.2.1, true)

/-- Outcome of `_setup` as observed by `BaseMonitor.start`: it either returns
or raises an exception carrying a message. -/
inductive SetupResult
  | ok
  | raised (msg : String)
  deriving Repr, DecidableEq

/-- `BaseMonitor.start` for a `CpuCoresMonitor`: an early return when already
running, otherwise set the flag, run `_setup` then `_run_loop` under
`try/except`, emit exactly one `FINISHED`, and clear the flag in `finally`.
The final `Bool` is `true` when `start` has returned within the trace. -/
def CpuCoresMonitor.start (m : CpuCoresMonitor) (setup : SetupResult) (numCores : ℕ)
    (trace : List CpuIter) : CpuCoresMonitor × List CpuEvent × Bool :=
  if m.isRunning then (m, [], true)
  else
    let m1 := { m with isRunning := true }
    match setup with
    | .raised e =>
      ({ m1 with isRunning := false },
        [CpuEvent.finished false ("Erreur inattendue: " ++ e)], true)
    | .ok =>
      let m2 := m1.setup numCores
      let r := m2.runLoop trace
      if r.2.2 then
        ({ r.1 with isRunning := false },
          CpuEvent.started :: r.2.1 ++ [CpuEvent.finished true "Surveillance terminée."], true)
      else (r.1, CpuEvent.started :: r.2.1, false)

/-- Outcome of the blocking call `self._proc.cpu_percent(interval=self.interval)`
on one pass of `ProcessCpuMonitor._run_loop`: a value, or an exception. -/
inductive ProcSample
  | value (q : ℚ)
  | noSuchProcess
  | otherError (msg : String)
  deriving Repr, DecidableEq

/-- One pass of `ProcessCpuMonitor._run_loop`'s `while` body: the outcome of
the blocking sampling call and whether `stop()` landed during it. -/
structure ProcIter where
  sample : ProcSample
  stopDuringCall : Bool
  deriving Repr, DecidableEq

/-- Events observable from a `ProcessCpuMonitor` run. -/
inductive ProcEvent
  | started (pid : ℕ) (name : String)
  | updated (v : ℚ)
  | finished (success : Bool) (msg : String)
  deriving Repr, DecidableEq

/-- State of a `ProcessCpuMonitor` (`stats.py`). -/
structure ProcessCpuMonitor where
  interval : ℚ
  pid : ℕ
  procName : String
  nCpu : ℕ
  historyLength : ℕ
  history : Option (BDeque ℚ)
  isRunning : Bool
  deriving Repr, DecidableEq

/-- `ProcessCpuMonitor.__init__(pid, interval, history_length)`
(`n_cpu = psutil.cpu_count()` and the process name are passed as parameters). -/
def ProcessCpuMonitor.init (pid : ℕ) (procName : String) (nCpu : ℕ)
    (interval : ℚ) (history_length : ℕ) : ProcessCpuMonitor :=
  { interval := interval
    pid := pid
    procName := procName
    nCpu := nCpu
    historyLength := history_length
    history := initHistory history_length
    isRunning := false }

/-- How `ProcessCpuMonitor._run_loop` ended: a normal return (the `while`
condition or the `break`, or the `NoSuchProcess` handler), or an uncaught
exception propagating to `start`. -/
inductive LoopResult
  | returned
  | raised (msg : String)
  | outOfTrace
  deriving Repr, DecidableEq

/-- `ProcessCpuMonitor._run_loop`: each pass performs the blocking sampling
call (which may raise), re-checks the running flag, divides the raw value by
`self._n_cpu` and emits `UPDATED`.  `psutil.NoSuchProcess` is caught around
the whole loop: it emits `FINISHED(True, ...)` and clears the flag, and the
method returns normally; any other exception propagates. -/
def ProcessCpuMonitor.runLoop (m : ProcessCpuMonitor) :
    List ProcIter → ProcessCpuMonitor × List ProcEvent × LoopResult
  | [] => if m.isRunning then (m, [], .outOfTrace) else (m, [], .returned)
  | it :: rest =>
    if !m.isRunning then (m, [], .returned)
    else
      match it.sample with
      | .noSuchProcess =>
        ({ m with history := applyHistory m.history .FINISHED 0, isRunning := false },
          [ProcEvent.finished true "Le processus s\x27est terminé."], .returned)
      | .otherError msg => (m, [], .raised msg)
      | .value q =>
        let m1 := if it.stopDuringCall then { m with isRunning := false } else m
        if !m1.isRunning then (m1, [], .returned)
        else
          let v := q / (m1.nCpu : ℚ)
          let m2 := { m1 with history := applyHistory m1.history .UPDATED v }
          let r := m2.runLoop rest
          (r.1, ProcEvent.updated v :: r.2.1, r.2.2)

/-- `BaseMonitor.start` for a `ProcessCpuMonitor` (the `stats.py` base class):
early return when already running; otherwise set the flag, run `_setup`
(which emits `STARTED(pid, name)` or raises) and `_run_loop` under
`try/except Exception`, emit `FINISHED`, and clear the flag in `finally`.
The final `Bool` is `true` when `start` has returned within the trace. -/
def ProcessCpuMonitor.start (m : ProcessCpuMonitor) (setup : SetupResult)
    (trace : List ProcIter) : ProcessCpuMonitor × List ProcEvent × Bool :=
  if m.isRunning then (m, [], true)
  else
    let m1 := { m with isRunning := true }
    match setup with
    | .raised e =>
      ({ m1 with isRunning := false },
        [ProcEvent.finished false ("Erreur inattendue: " ++ e)], true)
    | .ok =>
      let r := m1.runLoop trace
      match r.2.2 with
      | .outOfTrace => (r.1, ProcEvent.started m.pid m.procName :: r.2.1, false)
      | .returned =>
        ({ r.1 with isRunning := false },
          ProcEvent.started m.pid m.procName ::
            r.2.1 ++ [ProcEvent.finished true "Surveillance terminée."], true)
      | .raised e =>
        ({ r.1 with isRunning := false },
          ProcEvent.started m.pid m.procName ::
            r.2.1 ++ [ProcEvent.finished false ("Erreur inattendue: " ++ e)], true)

/-- Spec-side definition (for the refinement comparison): the running mean of
the last `W` raw samples, the smoothing buffer having been pre-filled with `W`
zeros at setup. -/
def specSmoothed (W : ℕ) (samples : List ℚ) : ℚ :=
  listMean (lastN W (List.replicate W (0 : ℚ) ++ samples))

/-- The per-core sample stream of core `i`, extracted from the list of raw
per-core sample vectors. -/
def colSamples (i : ℕ) (pss : List (List ℚ)) : List ℚ :=
  pss.map (fun ps => ps.getD i 0)

/-- Spec-side definition (for the refinement comparison): the `UPDATED`
events a run of the smoothing loop must emit from a trace, given the raw
samples already absorbed (`gs`, `pss`): one event per pass not interrupted by
`stop()`, carrying the running means over the zero-pre-filled window. -/
def specEvents (W numCores : ℕ) (gs : List ℚ) (pss : List (List ℚ)) :
    List CpuIter → List CpuEvent
  | [] => []
  | it :: rest =>
    if it.stopDuringSleep then []
    else
      let gs' := gs ++ [it.rawGlobal]
      let pss' := pss ++ [it.rawPerCpu]
      CpuEvent.updated (specSmoothed W gs')
          ((List.range numCores).map fun i => specSmoothed W (colSamples i pss'))
        :: specEvents W numCores gs' pss' rest

/-- Invariant tying a `CpuCoresMonitor` state to the raw samples absorbed so
far: each smoothing deque has capacity `W` and holds the last `W` elements of
the zero-pre-filled sample stream, and the loop is still polling. -/
structure CpuInv (m : CpuCoresMonitor) (W n : ℕ) (gs : List ℚ) (pss : List (List ℚ)) :
    Prop where
  gmax : m.globalHistory.maxlen = W
  gdata : m.globalHistory.data = lastN W (List.replicate W (0 : ℚ) ++ gs)
  plen : m.perCpuHistory.length = n
  pmax : ∀ i, i < n → (m.perCpuHistory.getD i (BDeque.empty 0)).maxlen = W
  pdata : ∀ i, i < n → (m.perCpuHistory.getD i (BDeque.empty 0)).data
      = lastN W (List.replicate W (0 : ℚ) ++ colSamples i pss)
  Wpos : 0 < W
  run : m.isRunning = true

/-- Is a `CpuEvent` an `UPDATED` emission? -/
def CpuEvent.isUpdated : CpuEvent → Bool
  | .updated _ _ => true
  | _ => false

/-- Is a `ProcEvent` a `FINISHED` emission? -/
def ProcEvent.isFinished : ProcEvent → Bool
  | .finished _ _ => true
  | _ => false

/-- With smoothing disabled the window is a single sample: the spec-side
events carry the raw samples unchanged. -/
def identityEvents : List CpuIter → List CpuEvent
  | [] => []
  | it :: rest =>
    if it.stopDuringSleep then []
    else CpuEvent.updated it.rawGlobal it.rawPerCpu :: identityEvents rest

/-- A pass of `ProcessCpuMonitor._run_loop` on which the sampling call
returns a value and `stop()` does not land. -/
def plainIter (it : ProcIter) : Prop :=
  (∃ q, it.sample = ProcSample.value q) ∧ it.stopDuringCall = false

/-- The bounded-history and bounded-smoothing-deque invariant of a
`CpuCoresMonitor`: history capacity `c` (absent when `c = 0`), smoothing
window `W`, every deque within capacity. -/
def CpuBounds (m : CpuCoresMonitor) (c W : ℕ) : Prop :=
  m.historyLength = c ∧ m.smoothingWindow = W ∧
  (c = 0 → m.history = none) ∧
  (∀ hd, m.history = some hd → hd.maxlen = c ∧ hd.data.length ≤ c) ∧
  m.globalHistory.maxlen = W ∧ m.globalHistory.data.length ≤ W ∧
  (∀ d ∈ m.perCpuHistory, d.maxlen = W ∧ d.data.length ≤ W)

/-- The bounded-history invariant of a `ProcessCpuMonitor`. -/
def ProcBounds (m : ProcessCpuMonitor) (c : ℕ) : Prop :=
  m.historyLength = c ∧
  (c = 0 → m.history = none) ∧
  (∀ hd, m.history = some hd → hd.maxlen = c ∧ hd.data.length ≤ c)

theorem lastN_length (n : ℕ) (l : List α) : (lastN n l).length = l.length - (l.length - n) := by
  simp [lastN]

theorem lastN_of_length_le {n : ℕ} {l : List α} (h : l.length ≤ n) : lastN n l = l := by
  simp [lastN, Nat.sub_eq_zero_of_le h]

theorem lastN_length_le (n : ℕ) (l : List α) : (lastN n l).length ≤ n := by
  simp only [lastN_length]
  omega

/-- Appending on the right commutes with truncation to the last `n` elements:
only the last `n` elements of the history matter for the future. -/
theorem lastN_append_lastN (n : ℕ) (l l₂ : List α) :
    lastN n (lastN n l ++ l₂) = lastN n (l ++ l₂) := by
  rcases le_or_lt l.length n with h | h
  · rw [lastN_of_length_le h]
  · unfold lastN
    rw [List.drop_append_eq_append_drop, List.drop_append_eq_append_drop,
      List.drop_drop]
    have hd : (l.drop (l.length - n)).length = n := by
      rw [List.length_drop]; omega
    congr 1
    · congr 1
      rw [List.length_append, List.length_append, hd]
      omega
    · congr 1
      rw [List.length_append, List.length_append, hd]
      omega

theorem BDeque.append_data (d : BDeque α) (x : α) {n : ℕ} {l : List α}
    (hm : d.maxlen = n) (hd : d.data = lastN n l) :
    (d.append x).data = lastN n (l ++ [x]) := by
  simp only [BDeque.append, hm, hd]
  exact lastN_append_lastN n l [x]

theorem BDeque.append_maxlen (d : BDeque α) (x : α) : (d.append x).maxlen = d.maxlen := rfl

theorem BDeque.extend_data (d : BDeque α) (xs : List α) {n : ℕ} {l : List α}
    (hm : d.maxlen = n) (hd : d.data = lastN n l) :
    (d.extend xs).data = lastN n (l ++ xs) := by
  induction xs generalizing d l with
  | nil => simpa [BDeque.extend] using hd
  | cons x xs ih =>
    simp only [BDeque.extend, List.foldl_cons]
    have h1 : (d.append x).data = lastN n (l ++ [x]) := d.append_data x hm hd
    have h2 : (d.append x).maxlen = n := by rw [BDeque.append_maxlen, hm]
    have := ih (d.append x) h2 h1
    simpa [BDeque.extend, List.append_assoc] using this

theorem BDeque.extend_maxlen (d : BDeque α) (xs : List α) :
    (d.extend xs).maxlen = d.maxlen := by
  induction xs generalizing d with
  | nil => rfl
  | cons x xs ih => simp [BDeque.extend, List.foldl_cons] at ih ⊢; exact ih (d.append x)

theorem BDeque.append_length_le (d : BDeque α) (x : α) :
    (d.append x).data.length ≤ d.maxlen := by
  simp only [BDeque.append]
  exact lastN_length_le _ _

theorem BDeque.extend_length_le (d : BDeque α) (xs : List α)
    (h : d.data.length ≤ d.maxlen) : (d.extend xs).data.length ≤ d.maxlen := by
  induction xs generalizing d with
  | nil => exact h
  | cons x xs ih =>
    simp only [BDeque.extend, List.foldl_cons] at ih ⊢
    have := ih (d.append x) (by simpa [BDeque.append_maxlen] using d.append_length_le x)
    simpa [BDeque.append_maxlen] using this

theorem smoothWindow_pos (sd i : ℚ) : 0 < smoothWindow sd i :=
  Nat.lt_of_lt_of_le Nat.one_pos (le_max_left 1 _)

theorem setup_inv (interval sd : ℚ) (hl numCores : ℕ) :
    CpuInv (CpuCoresMonitor.setup
        { CpuCoresMonitor.init interval sd hl with isRunning := true } numCores)
      (smoothWindow sd interval) numCores [] [] := by
  set W := smoothWindow sd interval with hW
  have hmap : (List.replicate numCores (BDeque.empty (α := ℚ) W)).map
      (fun d => d.extend (List.replicate W 0))
      = List.replicate numCores ((BDeque.empty (α := ℚ) W).extend (List.replicate W 0)) := by
    rw [List.map_replicate]
  have hed : ((BDeque.empty (α := ℚ) W).extend (List.replicate W 0)).data
      = lastN W (List.replicate W (0 : ℚ)) := by
    have := (BDeque.empty (α := ℚ) W).extend_data (List.replicate W 0)
      (n := W) (l := []) rfl (by simp [BDeque.empty, lastN])
    simpa using this
  have hem : ((BDeque.empty (α := ℚ) W).extend (List.replicate W 0)).maxlen = W :=
    BDeque.extend_maxlen _ _
  refine ⟨?_, ?_, ?_, ?_, ?_, smoothWindow_pos sd interval, rfl⟩
  · simpa [CpuCoresMonitor.setup, CpuCoresMonitor.init] using
      BDeque.extend_maxlen (BDeque.empty (α := ℚ) W) (List.replicate W 0)
  · have := (BDeque.empty (α := ℚ) W).extend_data (List.replicate W 0)
      (n := W) (l := []) rfl (by simp [BDeque.empty, lastN])
    simpa [CpuCoresMonitor.setup, CpuCoresMonitor.init] using this
  · simp [CpuCoresMonitor.setup, CpuCoresMonitor.init, hmap]
  · intro i hi
    simp only [CpuCoresMonitor.setup, CpuCoresMonitor.init, hmap]
    rw [List.getD_eq_getElem _ _ (by simpa using hi), List.getElem_replicate]
    exact hem
  · intro i hi
    simp only [CpuCoresMonitor.setup, CpuCoresMonitor.init, hmap]
    rw [List.getD_eq_getElem _ _ (by simpa using hi), List.getElem_replicate]
    simpa [colSamples] using hed

theorem updatePerCpu_length (hs : List (BDeque ℚ)) (raws : List ℚ)
    (h : raws.length = hs.length) : (updatePerCpu hs raws).length = hs.length := by
  simp [updatePerCpu, h]

theorem updatePerCpu_getElem (hs : List (BDeque ℚ)) (raws : List ℚ)
    (h : raws.length = hs.length) (i : ℕ) (hi : i < hs.length) :
    (updatePerCpu hs raws).getD i (BDeque.empty 0)
      = (hs.getD i (BDeque.empty 0)).append (raws.getD i 0) := by
  have hz : i < (List.zipWith BDeque.append hs raws).length := by
    simp only [List.length_zipWith]; omega
  have hu : i < (updatePerCpu hs raws).length := by
    rw [updatePerCpu_length hs raws h]; exact hi
  rw [List.getD_eq_getElem (updatePerCpu hs raws) (BDeque.empty 0) hu,
    List.getD_eq_getElem hs (BDeque.empty 0) hi,
    List.getD_eq_getElem raws 0 (by omega)]
  simp only [updatePerCpu]
  rw [List.getElem_append_left hz]
  exact List.getElem_zipWith

theorem colSamples_append (i : ℕ) (pss : List (List ℚ)) (ps : List ℚ) :
    colSamples i (pss ++ [ps]) = colSamples i pss ++ [ps.getD i 0] := by
  simp [colSamples]

theorem updatePerCpu_means (hs : List (BDeque ℚ)) (raws : List ℚ) (W n : ℕ)
    (pss : List (List ℚ)) (hlen : hs.length = n) (hraws : raws.length = n)
    (pmax : ∀ i, i < n → (hs.getD i (BDeque.empty 0)).maxlen = W)
    (pdata : ∀ i, i < n → (hs.getD i (BDeque.empty 0)).data
        = lastN W (List.replicate W (0 : ℚ) ++ colSamples i pss)) :
    (updatePerCpu hs raws).map BDeque.mean
      = (List.range n).map fun i => specSmoothed W (colSamples i (pss ++ [raws])) := by
  have hul : (updatePerCpu hs raws).length = n := by
    rw [updatePerCpu_length hs raws (by omega)]; exact hlen
  apply List.ext_getElem
  · simp [hul]
  · intro i h1 h2
    simp only [List.getElem_map, List.getElem_range]
    have hi : i < n := by simpa [hul] using h1
    rw [← List.getD_eq_getElem (updatePerCpu hs raws) (BDeque.empty 0) (by omega),
      updatePerCpu_getElem hs raws (by omega) i (by omega)]
    show BDeque.mean _ = _
    unfold BDeque.mean
    rw [BDeque.append_data _ _ (pmax i hi) (pdata i hi), colSamples_append,
      specSmoothed, List.append_assoc]

theorem loopIter_spec (m : CpuCoresMonitor) (W n : ℕ) (gs : List ℚ)
    (pss : List (List ℚ)) (it : CpuIter) (inv : CpuInv m W n gs pss)
    (hlen : it.rawPerCpu.length = n) (hstop : it.stopDuringSleep = false) :
    (m.loopIter it).2.1 = [CpuEvent.updated (specSmoothed W (gs ++ [it.rawGlobal]))
        ((List.range n).map fun i => specSmoothed W (colSamples i (pss ++ [it.rawPerCpu])))]
    ∧ (m.loopIter it).2.2 = true
    ∧ CpuInv (m.loopIter it).1 W n (gs ++ [it.rawGlobal]) (pss ++ [it.rawPerCpu]) := by
  have hrun := inv.run
  have hg : (m.globalHistory.append it.rawGlobal).mean
      = specSmoothed W (gs ++ [it.rawGlobal]) := by
    unfold BDeque.mean
    rw [BDeque.append_data _ _ inv.gmax inv.gdata, specSmoothed, List.append_assoc]
  have hp := updatePerCpu_means m.perCpuHistory it.rawPerCpu W n pss inv.plen hlen
    inv.pmax inv.pdata
  have hiter : m.loopIter it
      = ({ m with
            globalHistory := m.globalHistory.append it.rawGlobal
            perCpuHistory := updatePerCpu m.perCpuHistory it.rawPerCpu
            history := applyHistory m.history .UPDATED
              ((m.globalHistory.append it.rawGlobal).mean,
                (updatePerCpu m.perCpuHistory it.rawPerCpu).map BDeque.mean) },
          [CpuEvent.updated (m.globalHistory.append it.rawGlobal).mean
            ((updatePerCpu m.perCpuHistory it.rawPerCpu).map BDeque.mean)],
          true) := by
    simp [CpuCoresMonitor.loopIter, hrun, hstop]
  refine ⟨by rw [hiter]; simp [hg, hp], by rw [hiter], ?_⟩
  rw [hiter]
  refine ⟨?_, ?_, ?_, ?_, ?_, inv.Wpos, inv.run⟩
  · simpa [BDeque.append_maxlen] using inv.gmax
  · show (m.globalHistory.append it.rawGlobal).data = _
    rw [BDeque.append_data _ _ inv.gmax inv.gdata, List.append_assoc]
  · show (updatePerCpu m.perCpuHistory it.rawPerCpu).length = n
    rw [updatePerCpu_length _ _ (by rw [hlen, inv.plen])]; exact inv.plen
  · intro i hi
    show ((updatePerCpu m.perCpuHistory it.rawPerCpu).getD i (BDeque.empty 0)).maxlen = W
    rw [updatePerCpu_getElem _ _ (by rw [hlen, inv.plen]) i (by rw [inv.plen]; exact hi),
      BDeque.append_maxlen]
    exact inv.pmax i hi
  · intro i hi
    show ((updatePerCpu m.perCpuHistory it.rawPerCpu).getD i (BDeque.empty 0)).data = _
    rw [updatePerCpu_getElem _ _ (by rw [hlen, inv.plen]) i (by rw [inv.plen]; exact hi),
      BDeque.append_data _ _ (inv.pmax i hi) (inv.pdata i hi), colSamples_append,
      List.append_assoc]

theorem runLoop_spec (W n : ℕ) (trace : List CpuIter) :
    ∀ (m : CpuCoresMonitor) (gs : List ℚ) (pss : List (List ℚ)),
      CpuInv m W n gs pss → (∀ it ∈ trace, it.rawPerCpu.length = n) →
      (m.runLoop trace).2.1 = specEvents W n gs pss trace := by
  induction trace with
  | nil =>
    intro m gs pss inv _
    simp [CpuCoresMonitor.runLoop, specEvents, inv.run]
  | cons it rest ih =>
    intro m gs pss inv hlen
    by_cases hstop : it.stopDuringSleep = true
    · have hiter : m.loopIter it = ({ m with isRunning := false }, [], false) := by
        simp [CpuCoresMonitor.loopIter, inv.run, hstop]
      simp [CpuCoresMonitor.runLoop, hiter, specEvents, hstop]
    · have hstop' : it.stopDuringSleep = false := by simpa using hstop
      obtain ⟨hev, hcont, hinv⟩ := loopIter_spec m W n gs pss it inv
        (hlen it (by simp)) hstop'
      have htail := ih (m.loopIter it).1 (gs ++ [it.rawGlobal]) (pss ++ [it.rawPerCpu])
        hinv (fun x hx => hlen x (by simp [hx]))
      simp only [CpuCoresMonitor.runLoop, hcont, if_true, hev, htail]
      simp [specEvents, hstop']

theorem listMean_bounds (l : List ℚ) (hne : l ≠ [])
    (h : ∀ x ∈ l, 0 ≤ x ∧ x ≤ 100) : 0 ≤ listMean l ∧ listMean l ≤ 100 := by
  have hlen : (0 : ℚ) < (l.length : ℚ) := by
    have : l.length ≠ 0 := fun hc => hne (List.length_eq_zero.mp hc)
    exact_mod_cast Nat.pos_of_ne_zero this
  constructor
  · exact div_nonneg (List.sum_nonneg fun x hx => (h x hx).1) hlen.le
  · rw [listMean, div_le_iff₀ hlen]
    calc l.sum ≤ l.length • (100 : ℚ) := List.sum_le_card_nsmul l 100 fun x hx => (h x hx).2
      _ = 100 * (l.length : ℚ) := by rw [nsmul_eq_mul]; ring

theorem lastN_ne_nil {n : ℕ} {l : List α} (hn : 0 < n) (hl : n ≤ l.length) :
    lastN n l ≠ [] := by
  intro hc
  have h2 := lastN_length n l
  rw [hc] at h2
  simp only [List.length_nil] at h2
  omega

theorem specSmoothed_bounds (W : ℕ) (hW : 0 < W) (samples : List ℚ)
    (h : ∀ x ∈ samples, 0 ≤ x ∧ x ≤ 100) :
    0 ≤ specSmoothed W samples ∧ specSmoothed W samples ≤ 100 := by
  apply listMean_bounds
  · exact lastN_ne_nil hW (by simp)
  · intro x hx
    have := List.mem_of_mem_drop hx
    rcases List.mem_append.mp this with hz | hs
    · rw [List.eq_of_mem_replicate hz]; norm_num
    · exact h x hs

theorem getD_bounds (ps : List ℚ) (i : ℕ) (h : ∀ x ∈ ps, 0 ≤ x ∧ x ≤ 100) :
    0 ≤ ps.getD i 0 ∧ ps.getD i 0 ≤ 100 := by
  by_cases hi : i < ps.length
  · exact h _ (by rw [List.getD_eq_getElem ps 0 hi]; exact List.getElem_mem hi)
  · rw [List.getD_eq_getElem?_getD, List.getElem?_eq_none (by omega)]
    norm_num

theorem colSamples_bounds (i : ℕ) (pss : List (List ℚ))
    (h : ∀ ps ∈ pss, ∀ x ∈ ps, 0 ≤ x ∧ x ≤ 100) :
    ∀ x ∈ colSamples i pss, 0 ≤ x ∧ x ≤ 100 := by
  intro x hx
  obtain ⟨ps, hps, rfl⟩ := List.mem_map.mp hx
  exact getD_bounds ps i (h ps hps)

/-- Every value carried by the spec-side `UPDATED` events is a mean of
in-range values, hence in `[0, 100]`. -/
theorem specEvents_bounds (W n : ℕ) (hW : 0 < W) (trace : List CpuIter) :
    ∀ (gs : List ℚ) (pss : List (List ℚ)),
      (∀ x ∈ gs, 0 ≤ x ∧ x ≤ 100) →
      (∀ ps ∈ pss, ∀ x ∈ ps, 0 ≤ x ∧ x ≤ 100) →
      (∀ it ∈ trace, (0 ≤ it.rawGlobal ∧ it.rawGlobal ≤ 100) ∧
        ∀ x ∈ it.rawPerCpu, 0 ≤ x ∧ x ≤ 100) →
      ∀ g per, CpuEvent.updated g per ∈ specEvents W n gs pss trace →
        (0 ≤ g ∧ g ≤ 100) ∧ ∀ v ∈ per, 0 ≤ v ∧ v ≤ 100 := by
  induction trace with
  | nil => intro gs pss _ _ _ g per hmem; simp [specEvents] at hmem
  | cons it rest ih =>
    intro gs pss hgs hpss htr g per hmem
    by_cases hstop : it.stopDuringSleep = true
    · simp [specEvents, hstop] at hmem
    · have hstop' : it.stopDuringSleep = false := by simpa using hstop
      rw [specEvents, hstop'] at hmem
      simp only [Bool.false_eq_true, if_false, List.mem_cons] at hmem
      have hgs' : ∀ x ∈ gs ++ [it.rawGlobal], 0 ≤ x ∧ x ≤ 100 := by
        intro x hx
        rcases List.mem_append.mp hx with hx | hx
        · exact hgs x hx
        · rw [List.mem_singleton.mp hx]; exact (htr it (by simp)).1
      have hpss' : ∀ ps ∈ pss ++ [it.rawPerCpu], ∀ x ∈ ps, 0 ≤ x ∧ x ≤ 100 := by
        intro ps hps
        rcases List.mem_append.mp hps with hps | hps
        · exact hpss ps hps
        · rw [List.mem_singleton.mp hps]; exact (htr it (by simp)).2
      rcases hmem with heq | hmem
      · obtain ⟨hg, hper⟩ : g = specSmoothed W (gs ++ [it.rawGlobal]) ∧
            per = (List.range n).map
              fun i => specSmoothed W (colSamples i (pss ++ [it.rawPerCpu])) := by
          cases heq; exact ⟨rfl, rfl⟩
        constructor
        · rw [hg]; exact specSmoothed_bounds W hW _ hgs'
        · intro v hv
          rw [hper] at hv
          obtain ⟨i, _, rfl⟩ := List.mem_map.mp hv
          exact specSmoothed_bounds W hW _ (colSamples_bounds i _ hpss')
      · exact ih (gs ++ [it.rawGlobal]) (pss ++ [it.rawPerCpu]) hgs' hpss'
          (fun x hx => htr x (by simp [hx])) g per hmem

theorem lastN_one_append (l : List α) (x : α) : lastN 1 (l ++ [x]) = [x] := by
  unfold lastN
  rw [List.length_append]
  simp only [List.length_singleton, Nat.add_sub_cancel]
  exact List.drop_left l [x]

theorem specSmoothed_one (samples : List ℚ) (x : ℚ) :
    specSmoothed 1 (samples ++ [x]) = x := by
  rw [specSmoothed, show List.replicate 1 (0 : ℚ) ++ (samples ++ [x])
      = (List.replicate 1 (0 : ℚ) ++ samples) ++ [x] by rw [List.append_assoc],
    lastN_one_append]
  simp [listMean]

theorem range_map_getD (ps : List ℚ) (n : ℕ) (h : ps.length = n) :
    (List.range n).map (fun i => ps.getD i 0) = ps := by
  apply List.ext_getElem
  · simp [h]
  · intro i h1 h2
    simp only [List.getElem_map, List.getElem_range]
    rw [List.getD_eq_getElem ps 0 (by omega)]

theorem specEvents_one (n : ℕ) (trace : List CpuIter)
    (hlen : ∀ it ∈ trace, it.rawPerCpu.length = n) :
    ∀ (gs : List ℚ) (pss : List (List ℚ)),
      specEvents 1 n gs pss trace = identityEvents trace := by
  induction trace with
  | nil => intro gs pss; rfl
  | cons it rest ih =>
    intro gs pss
    by_cases hstop : it.stopDuringSleep = true
    · simp [specEvents, identityEvents, hstop]
    · have hstop' : it.stopDuringSleep = false := by simpa using hstop
      rw [specEvents, identityEvents, hstop']
      simp only [Bool.false_eq_true, if_false]
      rw [ih (fun x hx => hlen x (by simp [hx]))]
      congr 1
      rw [specSmoothed_one]
      congr 1
      rw [show (fun i => specSmoothed 1 (colSamples i (pss ++ [it.rawPerCpu])))
          = fun i => it.rawPerCpu.getD i 0 by
            funext i; rw [colSamples_append, specSmoothed_one]]
      exact range_map_getD _ n (hlen it (by simp))

theorem proc_runLoop_plain (rest : List ProcIter) (pre : List ProcIter) :
    ∀ (m : ProcessCpuMonitor), m.isRunning = true →
      (∀ it ∈ pre, plainIter it) →
      ∃ m' : ProcessCpuMonitor, m'.isRunning = true ∧ m'.nCpu = m.nCpu ∧
        m'.historyLength = m.historyLength ∧
        (m.runLoop (pre ++ rest)).1 = (m'.runLoop rest).1 ∧
        (m.runLoop (pre ++ rest)).2.2 = (m'.runLoop rest).2.2 ∧
        (m.runLoop (pre ++ rest)).2.1.filter ProcEvent.isFinished
          = ((m'.runLoop rest).2.1).filter ProcEvent.isFinished := by
  induction pre with
  | nil => intro m hrun _; exact ⟨m, hrun, rfl, rfl, rfl, rfl, rfl⟩
  | cons it pre ih =>
    intro m hrun hplain
    obtain ⟨⟨q, hq⟩, hstop⟩ := hplain it (by simp)
    have hcons : (it :: pre) ++ rest = it :: (pre ++ rest) := rfl
    obtain ⟨m', h1, h2, h3, h4, h5, h6⟩ :=
      ih { m with history := applyHistory m.history .UPDATED (q / (m.nCpu : ℚ)) }
        hrun (fun x hx => hplain x (by simp [hx]))
    simp only [hrun] at h4 h5 h6
    refine ⟨m', h1, h2, h3, ?_, ?_, ?_⟩ <;>
      simp only [hcons, ProcessCpuMonitor.runLoop, hrun, hq, hstop] <;>
      simp [hrun, h4, h5, h6, ProcEvent.isFinished]

theorem proc_runLoop_noSuch (m : ProcessCpuMonitor) (hrun : m.isRunning = true)
    (b : Bool) (post : List ProcIter) :
    m.runLoop (⟨ProcSample.noSuchProcess, b⟩ :: post)
      = ({ m with
            history := applyHistory m.history .FINISHED 0
            isRunning := false },
          [ProcEvent.finished true "Le processus s\x27est terminé."], .returned) := by
  simp [ProcessCpuMonitor.runLoop, hrun]

theorem proc_runLoop_error (m : ProcessCpuMonitor) (hrun : m.isRunning = true)
    (e : String) (b : Bool) (post : List ProcIter) :
    m.runLoop (⟨ProcSample.otherError e, b⟩ :: post) = (m, [], .raised e) := by
  simp [ProcessCpuMonitor.runLoop, hrun]

theorem init_bounds (interval sd : ℚ) (c : ℕ) :
    CpuBounds (CpuCoresMonitor.init interval sd c) c (smoothWindow sd interval) := by
  refine ⟨rfl, rfl, ?_, ?_, rfl, by simp [CpuCoresMonitor.init, BDeque.empty], by simp [CpuCoresMonitor.init]⟩
  · intro hc
    simp [CpuCoresMonitor.init, initHistory, hc]
  · intro hd hhd
    simp only [CpuCoresMonitor.init, initHistory] at hhd
    by_cases hc : c > 0
    · rw [if_pos hc] at hhd
      cases hhd
      exact ⟨rfl, by simp [BDeque.empty]⟩
    · rw [if_neg hc] at hhd
      cases hhd

theorem applyHistory_bounds {c : ℕ} (history : Option (BDeque α)) (ev : MonitorEvent)
    (payload : α)
    (hb : ∀ hd, history = some hd → hd.maxlen = c ∧ hd.data.length ≤ c)
    (hn : history = none → applyHistory history ev payload = none) :
    (history = none → applyHistory history ev payload = none) ∧
    (∀ hd, applyHistory history ev payload = some hd →
      hd.maxlen = c ∧ hd.data.length ≤ c) := by
  refine ⟨hn, ?_⟩
  intro hd hhd
  cases history with
  | none =>
    cases ev <;> simp [applyHistory] at hhd
  | some h0 =>
    have hb0 := hb h0 rfl
    cases ev <;> simp only [applyHistory] at hhd <;>
      first
      | (cases hhd; exact hb0)
      | (cases hhd
         exact ⟨by rw [BDeque.append_maxlen]; exact hb0.1,
           by rw [← hb0.1]; exact BDeque.append_length_le h0 payload⟩)

theorem applyHistory_none (ev : MonitorEvent) (payload : α) :
    applyHistory (α := α) none ev payload = none := by
  cases ev <;> rfl

theorem setup_bounds (m : CpuCoresMonitor) (c W n : ℕ) (hb : CpuBounds m c W) :
    CpuBounds (m.setup n) c W := by
  obtain ⟨h1, h2, h3, h4, h5, h6, h7⟩ := hb
  refine ⟨h1, h2, ?_, ?_, ?_, ?_, ?_⟩
  · intro hc
    simp only [CpuCoresMonitor.setup, h3 hc, applyHistory]
  · intro hd hhd
    simp only [CpuCoresMonitor.setup] at hhd
    rcases hh : m.history with _ | h0
    · rw [hh] at hhd
      simp [applyHistory] at hhd
    · rw [hh] at hhd
      simp only [applyHistory] at hhd
      cases hhd
      have hb0 := h4 h0 hh
      constructor
      · rw [BDeque.extend_maxlen]; exact hb0.1
      · rw [← hb0.1]
        exact BDeque.extend_length_le h0 _ (by rw [hb0.1]; exact hb0.2)
  · simpa [CpuCoresMonitor.setup, BDeque.extend_maxlen] using h5
  · show (m.globalHistory.extend _).data.length ≤ W
    rw [← h5]
    exact BDeque.extend_length_le _ _ (by rw [h5]; exact h6)
  · intro d hd
    simp only [CpuCoresMonitor.setup, List.map_replicate, List.mem_replicate] at hd
    rw [hd.2, h2]
    constructor
    · rw [BDeque.extend_maxlen]; rfl
    · exact BDeque.extend_length_le _ _ (by simp [BDeque.empty])

theorem updatePerCpu_bounds (hs : List (BDeque ℚ)) (raws : List ℚ) (W : ℕ)
    (h : ∀ d ∈ hs, d.maxlen = W ∧ d.data.length ≤ W) :
    ∀ d ∈ updatePerCpu hs raws, d.maxlen = W ∧ d.data.length ≤ W := by
  intro d hd
  rcases List.mem_append.mp hd with hz | hdrop
  · obtain ⟨i, hi, rfl⟩ := List.mem_iff_getElem.mp hz
    rw [List.getElem_zipWith]
    have hilen : i < hs.length := by
      rw [List.length_zipWith] at hi; omega
    have hmem := h hs[i] (List.getElem_mem hilen)
    refine ⟨by rw [BDeque.append_maxlen]; exact hmem.1, ?_⟩
    rw [← hmem.1]
    exact BDeque.append_length_le _ _
  · exact h d (List.mem_of_mem_drop hdrop)

theorem loopIter_bounds (m : CpuCoresMonitor) (c W : ℕ) (it : CpuIter)
    (hb : CpuBounds m c W) : CpuBounds (m.loopIter it).1 c W := by
  obtain ⟨h1, h2, h3, h4, h5, h6, h7⟩ := hb
  by_cases hrun : m.isRunning = true
  · by_cases hstop : it.stopDuringSleep = true
    · have : (m.loopIter it).1 = { m with isRunning := false } := by
        simp [CpuCoresMonitor.loopIter, hrun, hstop]
      rw [this]
      exact ⟨h1, h2, h3, h4, h5, h6, h7⟩
    · have hstop' : it.stopDuringSleep = false := by simpa using hstop
      have hthis : (m.loopIter it).1 = { m with
          globalHistory := m.globalHistory.append it.rawGlobal
          perCpuHistory := updatePerCpu m.perCpuHistory it.rawPerCpu
          history := applyHistory m.history .UPDATED
            ((m.globalHistory.append it.rawGlobal).mean,
              (updatePerCpu m.perCpuHistory it.rawPerCpu).map BDeque.mean) } := by
        simp [CpuCoresMonitor.loopIter, hrun, hstop']
      rw [hthis]
      obtain ⟨hn, hb'⟩ := applyHistory_bounds m.history .UPDATED
        ((m.globalHistory.append it.rawGlobal).mean,
          (updatePerCpu m.perCpuHistory it.rawPerCpu).map BDeque.mean) h4
        (fun hnone => by rw [hnone]; exact applyHistory_none _ _)
      refine ⟨h1, h2, ?_, hb', ?_, ?_, ?_⟩
      · intro hc
        rw [h3 hc]
        rfl
      · rw [BDeque.append_maxlen]; exact h5
      · rw [← h5]; exact BDeque.append_length_le _ _
      · exact updatePerCpu_bounds m.perCpuHistory it.rawPerCpu W h7
  · have hrf : m.isRunning = false := by simpa using hrun
    have : (m.loopIter it).1 = m := by
      simp [CpuCoresMonitor.loopIter, hrf]
    rw [this]
    exact ⟨h1, h2, h3, h4, h5, h6, h7⟩

theorem runLoop_bounds (c W : ℕ) (trace : List CpuIter) :
    ∀ m : CpuCoresMonitor, CpuBounds m c W → CpuBounds (m.runLoop trace).1 c W := by
  induction trace with
  | nil =>
    intro m hb
    by_cases hrun : m.isRunning = true <;>
      simp [CpuCoresMonitor.runLoop, hrun] <;> exact hb
  | cons it rest ih =>
    intro m hb
    rw [CpuCoresMonitor.runLoop]
    by_cases hc : (m.loopIter it).2.2 = true
    · simp only [hc, if_true]
      exact ih _ (loopIter_bounds m c W it hb)
    · have hc' : (m.loopIter it).2.2 = false := by simpa using hc
      simp only [hc', Bool.false_eq_true, if_false]
      exact loopIter_bounds m c W it hb

theorem cpu_runLoop_stopped (m : CpuCoresMonitor) (hrf : m.isRunning = false)
    (trace : List CpuIter) : m.runLoop trace = (m, [], true) := by
  cases trace with
  | nil => simp [CpuCoresMonitor.runLoop, hrf]
  | cons it rest => simp [CpuCoresMonitor.runLoop, CpuCoresMonitor.loopIter, hrf]

theorem cpu_runLoop_stop_cut (pre : List CpuIter) (it : CpuIter) (post : List CpuIter)
    (hstop : it.stopDuringSleep = true) :
    ∀ m : CpuCoresMonitor, m.runLoop (pre ++ it :: post) = m.runLoop (pre ++ [it])
      ∧ (m.runLoop (pre ++ [it])).2.2 = true := by
  induction pre with
  | nil =>
    intro m
    by_cases hrun : m.isRunning = true
    · have hiter : m.loopIter it = ({ m with isRunning := false }, [], false) := by
        simp [CpuCoresMonitor.loopIter, hrun, hstop]
      constructor <;> simp [CpuCoresMonitor.runLoop, hiter]
    · have hrf : m.isRunning = false := by simpa using hrun
      rw [List.nil_append, List.nil_append, cpu_runLoop_stopped m hrf,
        cpu_runLoop_stopped m hrf]
      exact ⟨rfl, rfl⟩
  | cons a pre ih =>
    intro m
    have h1 : (a :: pre) ++ it :: post = a :: (pre ++ it :: post) := rfl
    have h2 : (a :: pre) ++ [it] = a :: (pre ++ [it]) := rfl
    by_cases hc : (m.loopIter a).2.2 = true
    · obtain ⟨e1, e2⟩ := ih (m.loopIter a).1
      constructor
      · rw [h1, h2]
        simp only [CpuCoresMonitor.runLoop, hc, if_true]
        rw [e1]
      · rw [h2]
        simp only [CpuCoresMonitor.runLoop, hc, if_true]
        exact e2
    · have hc' : (m.loopIter a).2.2 = false := by simpa using hc
      constructor
      · rw [h1, h2]
        simp only [CpuCoresMonitor.runLoop, hc', Bool.false_eq_true, if_false]
      · rw [h2]
        simp only [CpuCoresMonitor.runLoop, hc', Bool.false_eq_true, if_false]

theorem proc_runLoop_stopped (m : ProcessCpuMonitor) (hrf : m.isRunning = false)
    (trace : List ProcIter) : m.runLoop trace = (m, [], .returned) := by
  cases trace with
  | nil => simp [ProcessCpuMonitor.runLoop, hrf]
  | cons it rest => simp [ProcessCpuMonitor.runLoop, hrf]

theorem proc_runLoop_stop_cut (pre : List ProcIter) (it : ProcIter)
    (post : List ProcIter) (hstop : it.stopDuringCall = true) :
    ∀ m : ProcessCpuMonitor, m.runLoop (pre ++ it :: post) = m.runLoop (pre ++ [it])
      ∧ (m.runLoop (pre ++ [it])).2.2 ≠ LoopResult.outOfTrace := by
  induction pre with
  | nil =>
    intro m
    by_cases hrun : m.isRunning = true
    · cases hs : it.sample with
      | noSuchProcess =>
        have he : it = ⟨ProcSample.noSuchProcess, it.stopDuringCall⟩ := by
          cases it; cases hs; rfl
        rw [List.nil_append, List.nil_append, he,
          proc_runLoop_noSuch m hrun it.stopDuringCall post,
          proc_runLoop_noSuch m hrun it.stopDuringCall []]
        exact ⟨rfl, by simp⟩
      | otherError e =>
        have he : it = ⟨ProcSample.otherError e, it.stopDuringCall⟩ := by
          cases it; cases hs; rfl
        rw [List.nil_append, List.nil_append, he,
          proc_runLoop_error m hrun e it.stopDuringCall post,
          proc_runLoop_error m hrun e it.stopDuringCall []]
        exact ⟨rfl, by simp⟩
      | value q =>
        constructor <;> simp [ProcessCpuMonitor.runLoop, hrun, hs, hstop]
    · have hrf : m.isRunning = false := by simpa using hrun
      rw [List.nil_append, List.nil_append, proc_runLoop_stopped m hrf,
        proc_runLoop_stopped m hrf]
      exact ⟨rfl, by simp⟩
  | cons a pre ih =>
    intro m
    have h1 : (a :: pre) ++ it :: post = a :: (pre ++ it :: post) := rfl
    have h2 : (a :: pre) ++ [it] = a :: (pre ++ [it]) := rfl
    by_cases hrun : m.isRunning = true
    · cases hs : a.sample with
      | noSuchProcess =>
        have he : a = ⟨ProcSample.noSuchProcess, a.stopDuringCall⟩ := by
          cases a; cases hs; rfl
        rw [h1, h2, he, proc_runLoop_noSuch m hrun a.stopDuringCall (pre ++ it :: post),
          proc_runLoop_noSuch m hrun a.stopDuringCall (pre ++ [it])]
        exact ⟨rfl, by simp⟩
      | otherError e =>
        have he : a = ⟨ProcSample.otherError e, a.stopDuringCall⟩ := by
          cases a; cases hs; rfl
        rw [h1, h2, he, proc_runLoop_error m hrun e a.stopDuringCall (pre ++ it :: post),
          proc_runLoop_error m hrun e a.stopDuringCall (pre ++ [it])]
        exact ⟨rfl, by simp⟩
      | value q =>
        by_cases hsc : a.stopDuringCall = true
        · constructor <;> simp [h1, h2, ProcessCpuMonitor.runLoop, hrun, hs, hsc]
        · have hsc' : a.stopDuringCall = false := by simpa using hsc
          obtain ⟨e1, e2⟩ :=
            ih { m with history := applyHistory m.history .UPDATED (q / (m.nCpu : ℚ)) }
          constructor
          · rw [h1, h2]
            simp only [ProcessCpuMonitor.runLoop, hrun, hs, hsc']
            simp only [hrun] at e1
            simp [hrun, e1]
          · rw [h2]
            simp only [ProcessCpuMonitor.runLoop, hrun, hs, hsc']
            simp only [hrun] at e2
            simpa [hrun] using e2
    · have hrf : m.isRunning = false := by simpa using hrun
      rw [h1, h2, proc_runLoop_stopped m hrf, proc_runLoop_stopped m hrf]
      exact ⟨rfl, by simp⟩

theorem proc_init_bounds (pid : ℕ) (name : String) (ncpu : ℕ) (interval : ℚ) (c : ℕ) :
    ProcBounds (ProcessCpuMonitor.init pid name ncpu interval c) c := by
  refine ⟨rfl, ?_, ?_⟩
  · intro hc
    simp [ProcessCpuMonitor.init, initHistory, hc]
  · intro hd hhd
    simp only [ProcessCpuMonitor.init, initHistory] at hhd
    by_cases hc : c > 0
    · rw [if_pos hc] at hhd
      cases hhd
      exact ⟨rfl, by simp [BDeque.empty]⟩
    · rw [if_neg hc] at hhd
      cases hhd

theorem proc_runLoop_bounds (c : ℕ) (trace : List ProcIter) :
    ∀ m : ProcessCpuMonitor, ProcBounds m c → ProcBounds (m.runLoop trace).1 c := by
  induction trace with
  | nil =>
    intro m hb
    by_cases hrun : m.isRunning = true <;> simp [ProcessCpuMonitor.runLoop, hrun] <;> exact hb
  | cons it rest ih =>
    intro m hb
    obtain ⟨h1, h2, h3⟩ := hb
    by_cases hrun : m.isRunning = true
    · cases hs : it.sample with
      | noSuchProcess =>
        have he : it = ⟨ProcSample.noSuchProcess, it.stopDuringCall⟩ := by
          cases it; cases hs; rfl
        rw [he, proc_runLoop_noSuch m hrun it.stopDuringCall rest]
        obtain ⟨hn, hb'⟩ := applyHistory_bounds m.history .FINISHED 0 h3
          (fun hnone => by rw [hnone]; exact applyHistory_none _ _)
        exact ⟨h1, fun hc => by rw [h2 hc]; rfl, hb'⟩
      | otherError e =>
        have he : it = ⟨ProcSample.otherError e, it.stopDuringCall⟩ := by
          cases it; cases hs; rfl
        rw [he, proc_runLoop_error m hrun e it.stopDuringCall rest]
        exact ⟨h1, h2, h3⟩
      | value q =>
        by_cases hsc : it.stopDuringCall = true
        · have : (m.runLoop (it :: rest)).1 = { m with isRunning := false } := by
            simp [ProcessCpuMonitor.runLoop, hrun, hs, hsc]
          rw [this]
          exact ⟨h1, h2, h3⟩
        · have hsc' : it.stopDuringCall = false := by simpa using hsc
          have hstep : (m.runLoop (it :: rest)).1 =
              (({ m with
                  history := applyHistory m.history .UPDATED (q / (m.nCpu : ℚ)) }
                : ProcessCpuMonitor).runLoop rest).1 := by
            simp [ProcessCpuMonitor.runLoop, hrun, hs, hsc']
          rw [hstep]
          apply ih
          obtain ⟨hn, hb'⟩ := applyHistory_bounds m.history .UPDATED (q / (m.nCpu : ℚ)) h3
            (fun hnone => by rw [hnone]; exact applyHistory_none _ _)
          exact ⟨h1, fun hc => by rw [h2 hc]; rfl, hb'⟩
    · have hrf : m.isRunning = false := by simpa using hrun
      rw [proc_runLoop_stopped m hrf]
      exact ⟨h1, h2, h3⟩

theorem proc_start_bounds (c : ℕ) (m : ProcessCpuMonitor) (setup : SetupResult)
    (trace : List ProcIter) (hb : ProcBounds m c) :
    ProcBounds (m.start setup trace).1 c := by
  obtain ⟨h1, h2, h3⟩ := hb
  rw [ProcessCpuMonitor.start]
  by_cases hrun : m.isRunning = true
  · simp only [hrun, if_true]
    exact ⟨h1, h2, h3⟩
  · have hrf : m.isRunning = false := by simpa using hrun
    simp only [hrf, Bool.false_eq_true, if_false]
    cases setup with
    | raised e => exact ⟨h1, h2, h3⟩
    | ok =>
      have hb1 : ProcBounds { m with isRunning := true } c := ⟨h1, h2, h3⟩
      have := proc_runLoop_bounds c trace { m with isRunning := true } hb1
      obtain ⟨g1, g2, g3⟩ := this
      cases hres : (({ m with isRunning := true } : ProcessCpuMonitor).runLoop trace).2.2 with
      | outOfTrace => simpa [hres] using ⟨g1, g2, g3⟩
      | returned => simpa [hres] using ⟨g1, g2, g3⟩
      | raised e => simpa [hres] using ⟨g1, g2, g3⟩

theorem specEvents_all_updated (W n : ℕ) (trace : List CpuIter) :
    ∀ (gs : List ℚ) (pss : List (List ℚ)),
      (specEvents W n gs pss trace).filter CpuEvent.isUpdated
        = specEvents W n gs pss trace := by
  induction trace with
  | nil => intro gs pss; rfl
  | cons it rest ih =>
    intro gs pss
    by_cases hstop : it.stopDuringSleep = true
    · simp [specEvents, hstop]
    · have hstop' : it.stopDuringSleep = false := by simpa using hstop
      rw [specEvents, hstop']
      simp only [Bool.false_eq_true, if_false, List.filter_cons]
      rw [ih]
      rfl

theorem cpu_start_bounds (c W n : ℕ) (m : CpuCoresMonitor) (setup : SetupResult)
    (trace : List CpuIter) (hb : CpuBounds m c W) :
    CpuBounds (m.start setup n trace).1 c W := by
  rw [CpuCoresMonitor.start]
  by_cases hrun : m.isRunning = true
  · simp only [hrun, if_true]
    exact hb
  · have hrf : m.isRunning = false := by simpa using hrun
    simp only [hrf, Bool.false_eq_true, if_false]
    cases setup with
    | raised e =>
      obtain ⟨h1, h2, h3, h4, h5, h6, h7⟩ := hb
      exact ⟨h1, h2, h3, h4, h5, h6, h7⟩
    | ok =>
      have hb1 : CpuBounds { m with isRunning := true } c W := by
        obtain ⟨h1, h2, h3, h4, h5, h6, h7⟩ := hb
        exact ⟨h1, h2, h3, h4, h5, h6, h7⟩
      have hb2 := runLoop_bounds c W trace _ (setup_bounds _ c W n hb1)
      obtain ⟨g1, g2, g3, g4, g5, g6, g7⟩ := hb2
      by_cases hres : ((({ m with isRunning := true } : CpuCoresMonitor).setup n).runLoop
          trace).2.2 = true
      · simpa [hres] using ⟨g1, g2, g3, g4, g5, g6, g7⟩
      · have hres' : ((({ m with isRunning := true } : CpuCoresMonitor).setup n).runLoop
            trace).2.2 = false := by simpa using hres
        simpa [hres'] using ⟨g1, g2, g3, g4, g5, g6, g7⟩

theorem cpu_start_ok_events_completed (m : CpuCoresMonitor) (hrf : m.isRunning = false)
    (n : ℕ) (trace : List CpuIter)
    (hres : ((({ m with isRunning := true } : CpuCoresMonitor).setup n).runLoop
      trace).2.2 = true) :
    (m.start .ok n trace).2.1
      = CpuEvent.started ::
          ((({ m with isRunning := true } : CpuCoresMonitor).setup n).runLoop trace).2.1
          ++ [CpuEvent.finished true "Surveillance terminée."]
      ∧ (m.start .ok n trace).2.2 = true
      ∧ (m.start .ok n trace).1.isRunning = false := by
  refine ⟨?_, ?_, ?_⟩ <;> simp [CpuCoresMonitor.start, hrf, hres]

theorem cpu_start_ok_events_incomplete (m : CpuCoresMonitor) (hrf : m.isRunning = false)
    (n : ℕ) (trace : List CpuIter)
    (hres : ((({ m with isRunning := true } : CpuCoresMonitor).setup n).runLoop
      trace).2.2 = false) :
    (m.start .ok n trace).2.1
      = CpuEvent.started ::
          ((({ m with isRunning := true } : CpuCoresMonitor).setup n).runLoop trace).2.1 := by
  simp [CpuCoresMonitor.start, hrf, hres]

/-- The `UPDATED` events of a full `start` of a `CpuCoresMonitor` are exactly
the spec-side running-mean events. -/
theorem start_filter_spec (interval sd : ℚ) (hl numCores : ℕ) (trace : List CpuIter)
    (hlen : ∀ it ∈ trace, it.rawPerCpu.length = numCores) :
    ((CpuCoresMonitor.init interval sd hl).start .ok numCores trace).2.1.filter
        CpuEvent.isUpdated
      = specEvents (smoothWindow sd interval) numCores [] [] trace := by
  have hinv := setup_inv interval sd hl numCores
  have hspec := runLoop_spec (smoothWindow sd interval) numCores trace _ [] [] hinv hlen
  have hnr : (CpuCoresMonitor.init interval sd hl).isRunning = false := rfl
  by_cases hres : ((({ CpuCoresMonitor.init interval sd hl with isRunning := true }
      : CpuCoresMonitor).setup numCores).runLoop trace).2.2 = true
  · obtain ⟨hev, -, -⟩ := cpu_start_ok_events_completed _ hnr numCores trace hres
    rw [hev]
    simp only [List.filter_cons, List.filter_append, List.filter_nil, CpuEvent.isUpdated]
    rw [hspec, specEvents_all_updated]
    simp
  · have hres' : ((({ CpuCoresMonitor.init interval sd hl with isRunning := true }
        : CpuCoresMonitor).setup numCores).runLoop trace).2.2 = false := by simpa using hres
    rw [cpu_start_ok_events_incomplete _ hnr numCores trace hres']
    simp only [List.filter_cons, CpuEvent.isUpdated]
    rw [hspec, specEvents_all_updated]
    simp

/-- Every `UPDATED` payload of a `ProcessCpuMonitor` run loop is a raw value
sample of the trace divided by the stored cpu count. -/
theorem proc_runLoop_updated_mem (trace : List ProcIter) :
    ∀ (m : ProcessCpuMonitor) (v : ℚ), ProcEvent.updated v ∈ (m.runLoop trace).2.1 →
      ∃ it ∈ trace, ∃ q, it.sample = ProcSample.value q ∧ v = q / (m.nCpu : ℚ) := by
  induction trace with
  | nil =>
    intro m v hv
    by_cases hrun : m.isRunning = true <;> simp [ProcessCpuMonitor.runLoop, hrun] at hv
  | cons it rest ih =>
    intro m v hv
    by_cases hrun : m.isRunning = true
    · cases hs : it.sample with
      | noSuchProcess => simp [ProcessCpuMonitor.runLoop, hrun, hs] at hv
      | otherError e => simp [ProcessCpuMonitor.runLoop, hrun, hs] at hv
      | value q =>
        by_cases hsc : it.stopDuringCall = true
        · simp [ProcessCpuMonitor.runLoop, hrun, hs, hsc] at hv
        · have hsc' : it.stopDuringCall = false := by simpa using hsc
          simp only [ProcessCpuMonitor.runLoop, hrun, hs, hsc', Bool.not_true,
            Bool.false_eq_true, if_false, List.mem_cons, ProcEvent.updated.injEq] at hv
          rcases hv with rfl | hv
          · exact ⟨it, by simp, q, hs, rfl⟩
          · obtain ⟨it', hit', q', hq', hv'⟩ := ih _ v hv
            exact ⟨it', by simp [hit'], q', hq', hv'⟩
    · have hrf : m.isRunning = false := by simpa using hrun
      rw [proc_runLoop_stopped m hrf] at hv
      simp at hv

theorem bdeque_eq {d₁ d₂ : BDeque α} (h1 : d₁.maxlen = d₂.maxlen)
    (h2 : d₁.data = d₂.data) : d₁ = d₂ := by
  cases d₁; cases d₂
  simp only at h1 h2
  rw [h1, h2]

theorem BDeque.append_length_full (d : BDeque α) (x : α)
    (h : d.data.length = d.maxlen) : (d.append x).data.length = d.maxlen := by
  simp only [BDeque.append, lastN_length, List.length_append]
  omega

/-- C9 helper: after `_setup`, a positive-capacity history holds exactly the
capacity's worth of zero padding elements. -/
theorem setup_history_full (interval sd : ℚ) (c n : ℕ) (hc : 0 < c) :
    ((CpuCoresMonitor.init interval sd c).setup n).history
      = some ⟨c, List.replicate c ((0 : ℚ), List.replicate n (0 : ℚ))⟩ := by
  have hh : (CpuCoresMonitor.init interval sd c).history
      = some (BDeque.empty c) := by
    simp [CpuCoresMonitor.init, initHistory, hc]
  rw [CpuCoresMonitor.setup, hh]
  simp only [applyHistory]
  have hext : (BDeque.empty (α := ℚ × List ℚ) c).extend
      (List.replicate (CpuCoresMonitor.init interval sd c).historyLength
        ((0 : ℚ), List.replicate n (0 : ℚ)))
      = ⟨c, List.replicate c ((0 : ℚ), List.replicate n (0 : ℚ))⟩ := by
    apply bdeque_eq
    · rw [BDeque.extend_maxlen]; rfl
    · have := (BDeque.empty (α := ℚ × List ℚ) c).extend_data
        (List.replicate (CpuCoresMonitor.init interval sd c).historyLength
          ((0 : ℚ), List.replicate n (0 : ℚ)))
        (n := c) (l := []) rfl (by simp [BDeque.empty, lastN])
      rw [this]
      show lastN c (List.replicate (CpuCoresMonitor.init interval sd c).historyLength _) = _
      rw [show (CpuCoresMonitor.init interval sd c).historyLength = c from rfl]
      exact lastN_of_length_le (by simp)
  rw [hext]

theorem proc_start_ok_returned (m : ProcessCpuMonitor) (hrf : m.isRunning = false)
    (trace : List ProcIter)
    (hres : (({ m with isRunning := true } : ProcessCpuMonitor).runLoop trace).2.2
      = .returned) :
    (m.start .ok trace).2.1
      = ProcEvent.started m.pid m.procName ::
          (({ m with isRunning := true } : ProcessCpuMonitor).runLoop trace).2.1
          ++ [ProcEvent.finished true "Surveillance terminée."]
      ∧ (m.start .ok trace).2.2 = true
      ∧ (m.start .ok trace).1.isRunning = false := by
  refine ⟨?_, ?_, ?_⟩ <;> simp [ProcessCpuMonitor.start, hrf, hres]

theorem proc_start_ok_raised (m : ProcessCpuMonitor) (hrf : m.isRunning = false)
    (trace : List ProcIter) (e : String)
    (hres : (({ m with isRunning := true } : ProcessCpuMonitor).runLoop trace).2.2
      = .raised e) :
    (m.start .ok trace).2.1
      = ProcEvent.started m.pid m.procName ::
          (({ m with isRunning := true } : ProcessCpuMonitor).runLoop trace).2.1
          ++ [ProcEvent.finished false ("Erreur inattendue: " ++ e)]
      ∧ (m.start .ok trace).2.2 = true
      ∧ (m.start .ok trace).1.isRunning = false := by
  refine ⟨?_, ?_, ?_⟩ <;> simp [ProcessCpuMonitor.start, hrf, hres]

theorem proc_start_updated_mem (m : ProcessCpuMonitor) (setup : SetupResult)
    (trace : List ProcIter) (v : ℚ)
    (hv : ProcEvent.updated v ∈ (m.start setup trace).2.1) :
    ProcEvent.updated v
      ∈ (({ m with isRunning := true } : ProcessCpuMonitor).runLoop trace).2.1 := by
  rw [ProcessCpuMonitor.start] at hv
  by_cases hrun : m.isRunning = true
  · simp [hrun] at hv
  · have hrf : m.isRunning = false := by simpa using hrun
    simp only [hrf, Bool.false_eq_true, if_false] at hv
    cases setup with
    | raised e => simp at hv
    | ok =>
      cases hres : (({ m with isRunning := true } : ProcessCpuMonitor).runLoop
          trace).2.2 with
      | outOfTrace => simpa [hres] using hv
      | returned => simpa [hres] using hv
      | raised e => simpa [hres] using hv

/-- C1: every smoothed value emitted with an `UPDATED` event during a run of
`CpuCoresMonitor` (and of `GlobalCpuMonitor`, whose loop is the same without a
history buffer) — the global value and each per-core value — equals the
running mean over the last `N` slots of the smoothing window, where
`N = max(1, round(smoothing_duration_s / interval))` and the window was
pre-filled with zeros at setup; this holds at every loop iteration. -/
theorem updated_values_are_running_means (interval sd : ℚ) (hl numCores : ℕ)
    (trace : List CpuIter) (hlen : ∀ it ∈ trace, it.rawPerCpu.length = numCores) :
    ((CpuCoresMonitor.init interval sd hl).start .ok numCores trace).2.1.filter
        CpuEvent.isUpdated
      = specEvents (smoothWindow sd interval) numCores [] [] trace
    ∧ ((GlobalCpuMonitor.init interval sd).start .ok numCores trace).2.1.filter
        CpuEvent.isUpdated
      = specEvents (smoothWindow sd interval) numCores [] [] trace :=
  ⟨start_filter_spec interval sd hl numCores trace hlen,
   start_filter_spec interval sd 0 numCores trace hlen⟩

theorem updated_values_are_running_means_witness :
    ((CpuCoresMonitor.init 1 1 0).start .ok 1 [⟨false, 50, [50]⟩]).2.1.filter
        CpuEvent.isUpdated
      = specEvents (smoothWindow 1 1) 1 [] [] [⟨false, 50, [50]⟩]
    ∧ ((GlobalCpuMonitor.init 1 1).start .ok 1 [⟨false, 50, [50]⟩]).2.1.filter
        CpuEvent.isUpdated
      = specEvents (smoothWindow 1 1) 1 [] [] [⟨false, 50, [50]⟩] :=
  updated_values_are_running_means 1 1 0 1 [⟨false, 50, [50]⟩]
    (by intro it hit; rw [List.mem_singleton] at hit; subst hit; rfl)

/-- C2: for every monitor constructed with `history_length = c`, the history
buffer never exceeds capacity `c` (and is absent when `c = 0`, in which case
`UPDATED` events append nothing), and each smoothing deque never exceeds the
window `N = max(1, round(smoothing_duration_s / interval))`, after
construction, setup, every loop iteration, every run and every start. -/
theorem history_and_smoothing_buffers_bounded :
    (∀ (interval sd : ℚ) (c : ℕ),
      CpuBounds (CpuCoresMonitor.init interval sd c) c (smoothWindow sd interval))
    ∧ (∀ (m : CpuCoresMonitor) (c W n : ℕ), CpuBounds m c W → CpuBounds (m.setup n) c W)
    ∧ (∀ (m : CpuCoresMonitor) (c W : ℕ) (it : CpuIter), CpuBounds m c W →
        CpuBounds (m.loopIter it).1 c W)
    ∧ (∀ (m : CpuCoresMonitor) (c W : ℕ) (trace : List CpuIter), CpuBounds m c W →
        CpuBounds (m.runLoop trace).1 c W)
    ∧ (∀ (m : CpuCoresMonitor) (c W n : ℕ) (setup : SetupResult) (trace : List CpuIter),
        CpuBounds m c W → CpuBounds (m.start setup n trace).1 c W)
    ∧ (∀ (pid : ℕ) (name : String) (ncpu : ℕ) (interval : ℚ) (c : ℕ),
        ProcBounds (ProcessCpuMonitor.init pid name ncpu interval c) c)
    ∧ (∀ (m : ProcessCpuMonitor) (c : ℕ) (trace : List ProcIter), ProcBounds m c →
        ProcBounds (m.runLoop trace).1 c)
    ∧ (∀ (m : ProcessCpuMonitor) (c : ℕ) (setup : SetupResult) (trace : List ProcIter),
        ProcBounds m c → ProcBounds (m.start setup trace).1 c)
    ∧ (∀ (p : ℚ × List ℚ), applyHistory none MonitorEvent.UPDATED p = none)
    ∧ (∀ (v : ℚ), applyHistory none MonitorEvent.UPDATED v = none) :=
  ⟨fun interval sd c => init_bounds interval sd c,
   fun m c W n hb => setup_bounds m c W n hb,
   fun m c W it hb => loopIter_bounds m c W it hb,
   fun m c W trace hb => runLoop_bounds c W trace m hb,
   fun m c W n setup trace hb => cpu_start_bounds c W n m setup trace hb,
   fun pid name ncpu interval c => proc_init_bounds pid name ncpu interval c,
   fun m c trace hb => proc_runLoop_bounds c trace m hb,
   fun m c setup trace hb => proc_start_bounds c m setup trace hb,
   fun _ => rfl, fun _ => rfl⟩

theorem history_and_smoothing_buffers_bounded_witness :
    CpuBounds ((CpuCoresMonitor.init 1 1 2).runLoop [⟨false, 50, [50]⟩]).1 2
      (smoothWindow 1 1)
    ∧ ProcBounds ((ProcessCpuMonitor.init 7 "p" 1 1 0).runLoop
        [⟨ProcSample.value 50, false⟩]).1 0 :=
  ⟨history_and_smoothing_buffers_bounded.2.2.2.1 (CpuCoresMonitor.init 1 1 2) 2
      (smoothWindow 1 1) [⟨false, 50, [50]⟩]
      (history_and_smoothing_buffers_bounded.1 1 1 2),
   history_and_smoothing_buffers_bounded.2.2.2.2.2.2.1 (ProcessCpuMonitor.init 7 "p" 1 1 0)
      0 [⟨ProcSample.value 50, false⟩]
      (history_and_smoothing_buffers_bounded.2.2.2.2.2.1 7 "p" 1 1 0)⟩

/-- C3: every percentage emitted in an `UPDATED` event lies in `[0, 100]`:
for `CpuCoresMonitor` under the hypothesis that every raw sample is in
`[0, 100]` (the zero pre-fill is in range and a mean of in-range values is in
range), and for `ProcessCpuMonitor` under the hypothesis that the raw process
percentage is in `[0, 100 * cpu_count]`, so that `raw / cpu_count ∈ [0, 100]`. -/
theorem updated_percentages_in_range :
    (∀ (interval sd : ℚ) (hl numCores : ℕ) (trace : List CpuIter),
      (∀ it ∈ trace, it.rawPerCpu.length = numCores) →
      (∀ it ∈ trace, (0 ≤ it.rawGlobal ∧ it.rawGlobal ≤ 100) ∧
        ∀ x ∈ it.rawPerCpu, 0 ≤ x ∧ x ≤ 100) →
      ∀ g per, CpuEvent.updated g per ∈
          ((CpuCoresMonitor.init interval sd hl).start .ok numCores trace).2.1 →
        (0 ≤ g ∧ g ≤ 100) ∧ ∀ v ∈ per, 0 ≤ v ∧ v ≤ 100)
    ∧ (∀ (pid : ℕ) (name : String) (ncpu : ℕ) (interval : ℚ) (hl : ℕ)
        (trace : List ProcIter), 1 ≤ ncpu →
      (∀ it ∈ trace, ∀ q, it.sample = ProcSample.value q →
        0 ≤ q ∧ q ≤ 100 * (ncpu : ℚ)) →
      ∀ v, ProcEvent.updated v ∈
          ((ProcessCpuMonitor.init pid name ncpu interval hl).start .ok trace).2.1 →
        0 ≤ v ∧ v ≤ 100) := by
  constructor
  · intro interval sd hl numCores trace hlen hrange g per hmem
    have hfil := start_filter_spec interval sd hl numCores trace hlen
    have hmem2 : CpuEvent.updated g per
        ∈ specEvents (smoothWindow sd interval) numCores [] [] trace := by
      rw [← hfil]
      exact List.mem_filter.mpr ⟨hmem, rfl⟩
    exact specEvents_bounds _ numCores (smoothWindow_pos sd interval) trace [] []
      (by simp) (by simp) hrange g per hmem2
  · intro pid name ncpu interval hl trace hn hq v hmem
    have hmem2 := proc_start_updated_mem _ .ok trace v hmem
    obtain ⟨it, hit, q, hqs, rfl⟩ := proc_runLoop_updated_mem trace _ v hmem2
    obtain ⟨hq0, hq100⟩ := hq it hit q hqs
    have hpos : (0 : ℚ) < (ncpu : ℚ) := by
      have : (1 : ℚ) ≤ (ncpu : ℚ) := by exact_mod_cast hn
      linarith
    show (0 : ℚ) ≤ q / (ncpu : ℚ) ∧ q / (ncpu : ℚ) ≤ 100
    constructor
    · exact div_nonneg hq0 hpos.le
    · rw [div_le_iff₀ hpos]
      exact hq100

theorem updated_percentages_in_range_witness :
    ((0 : ℚ) ≤ 50 ∧ (50 : ℚ) ≤ 100) ∧ ∀ v ∈ [(50 : ℚ)], 0 ≤ v ∧ v ≤ 100 :=
  updated_percentages_in_range.1 1 1 0 1 [⟨false, 50, [50]⟩]
    (by intro it hit; rw [List.mem_singleton] at hit; subst hit; rfl)
    (by intro it hit; rw [List.mem_singleton] at hit; subst hit
        refine ⟨⟨by norm_num, by norm_num⟩, ?_⟩
        intro x hx; rw [List.mem_singleton] at hx; subst hx
        exact ⟨by norm_num, by norm_num⟩)
    50 [50]
    (by norm_num [CpuCoresMonitor.start, CpuCoresMonitor.init, CpuCoresMonitor.setup,
      CpuCoresMonitor.runLoop, CpuCoresMonitor.loopIter, smoothWindow, pythonRound,
      BDeque.empty, BDeque.extend, BDeque.append, BDeque.mean, lastN, listMean,
      updatePerCpu, applyHistory])

/-- C4: if the target process no longer exists during `ProcessCpuMonitor`'s
run loop (`psutil.NoSuchProcess` raised by the sampling call), the monitor
treats it as normal termination: a `FINISHED` event with `success = True` and
a descriptive message is emitted, the running flag is cleared, and the
exception does not propagate out of `start()` (which returns normally). -/
theorem noSuchProcess_is_normal_termination (pid : ℕ) (name : String) (ncpu : ℕ)
    (interval : ℚ) (hl : ℕ) (pre post : List ProcIter) (b : Bool)
    (hpre : ∀ it ∈ pre, plainIter it) :
    ((ProcessCpuMonitor.init pid name ncpu interval hl).start .ok
        (pre ++ ⟨ProcSample.noSuchProcess, b⟩ :: post)).2.2 = true
    ∧ ((ProcessCpuMonitor.init pid name ncpu interval hl).start .ok
        (pre ++ ⟨ProcSample.noSuchProcess, b⟩ :: post)).1.isRunning = false
    ∧ ProcEvent.finished true "Le processus s\x27est terminé."
        ∈ ((ProcessCpuMonitor.init pid name ncpu interval hl).start .ok
            (pre ++ ⟨ProcSample.noSuchProcess, b⟩ :: post)).2.1 := by
  have hrf : (ProcessCpuMonitor.init pid name ncpu interval hl).isRunning = false := rfl
  have hrun : ({ ProcessCpuMonitor.init pid name ncpu interval hl with isRunning := true }
      : ProcessCpuMonitor).isRunning = true := rfl
  obtain ⟨m', h1, h2, h3, h4, h5, h6⟩ :=
    proc_runLoop_plain (⟨ProcSample.noSuchProcess, b⟩ :: post) pre _ hrun hpre
  have hnoSuch := proc_runLoop_noSuch m' h1 b post
  have hres : (({ ProcessCpuMonitor.init pid name ncpu interval hl with isRunning := true }
      : ProcessCpuMonitor).runLoop
        (pre ++ ⟨ProcSample.noSuchProcess, b⟩ :: post)).2.2 = .returned := by
    rw [h5, hnoSuch]
  obtain ⟨hev, hcomp, hrunf⟩ := proc_start_ok_returned _ hrf _ hres
  refine ⟨hcomp, hrunf, ?_⟩
  have hfil : (({ ProcessCpuMonitor.init pid name ncpu interval hl with isRunning := true }
      : ProcessCpuMonitor).runLoop
        (pre ++ ⟨ProcSample.noSuchProcess, b⟩ :: post)).2.1.filter ProcEvent.isFinished
      = [ProcEvent.finished true "Le processus s\x27est terminé."] := by
    rw [h6, hnoSuch]
    rfl
  have hmem : ProcEvent.finished true "Le processus s\x27est terminé."
      ∈ (({ ProcessCpuMonitor.init pid name ncpu interval hl with isRunning := true }
        : ProcessCpuMonitor).runLoop
          (pre ++ ⟨ProcSample.noSuchProcess, b⟩ :: post)).2.1 := by
    apply List.mem_of_mem_filter (p := ProcEvent.isFinished)
    rw [hfil]
    simp
  rw [hev]
  exact List.mem_cons_of_mem _ (List.mem_append_left _ hmem)

theorem noSuchProcess_is_normal_termination_witness :
    ((ProcessCpuMonitor.init 7 "p" 1 1 0).start .ok
        [⟨ProcSample.noSuchProcess, false⟩]).2.2 = true
    ∧ ((ProcessCpuMonitor.init 7 "p" 1 1 0).start .ok
        [⟨ProcSample.noSuchProcess, false⟩]).1.isRunning = false
    ∧ ProcEvent.finished true "Le processus s\x27est terminé."
        ∈ ((ProcessCpuMonitor.init 7 "p" 1 1 0).start .ok
            [⟨ProcSample.noSuchProcess, false⟩]).2.1 :=
  noSuchProcess_is_normal_termination 7 "p" 1 1 0 [] [] false (by intro it hit; simp at hit)

/-- C8: in the process-disappeared path the `FINISHED` handlers run exactly
twice within one call to `start()`: once from `_run_loop`'s `NoSuchProcess`
handler and once more from `start` after `_run_loop` returns normally — not
exactly once per run. -/
theorem noSuchProcess_finished_emitted_twice (pid : ℕ) (name : String) (ncpu : ℕ)
    (interval : ℚ) (hl : ℕ) (pre post : List ProcIter) (b : Bool)
    (hpre : ∀ it ∈ pre, plainIter it) :
    ((ProcessCpuMonitor.init pid name ncpu interval hl).start .ok
        (pre ++ ⟨ProcSample.noSuchProcess, b⟩ :: post)).2.1.filter ProcEvent.isFinished
      = [ProcEvent.finished true "Le processus s\x27est terminé.",
         ProcEvent.finished true "Surveillance terminée."] := by
  have hrf : (ProcessCpuMonitor.init pid name ncpu interval hl).isRunning = false := rfl
  have hrun : ({ ProcessCpuMonitor.init pid name ncpu interval hl with isRunning := true }
      : ProcessCpuMonitor).isRunning = true := rfl
  obtain ⟨m', h1, h2, h3, h4, h5, h6⟩ :=
    proc_runLoop_plain (⟨ProcSample.noSuchProcess, b⟩ :: post) pre _ hrun hpre
  have hnoSuch := proc_runLoop_noSuch m' h1 b post
  have hres : (({ ProcessCpuMonitor.init pid name ncpu interval hl with isRunning := true }
      : ProcessCpuMonitor).runLoop
        (pre ++ ⟨ProcSample.noSuchProcess, b⟩ :: post)).2.2 = .returned := by
    rw [h5, hnoSuch]
  obtain ⟨hev, -, -⟩ := proc_start_ok_returned _ hrf _ hres
  have hfil : (({ ProcessCpuMonitor.init pid name ncpu interval hl with isRunning := true }
      : ProcessCpuMonitor).runLoop
        (pre ++ ⟨ProcSample.noSuchProcess, b⟩ :: post)).2.1.filter ProcEvent.isFinished
      = [ProcEvent.finished true "Le processus s\x27est terminé."] := by
    rw [h6, hnoSuch]
    rfl
  rw [hev]
  simp only [List.filter_cons, List.filter_append, hfil]
  rfl

theorem noSuchProcess_finished_emitted_twice_witness :
    ((ProcessCpuMonitor.init 7 "p" 1 1 0).start .ok
        [⟨ProcSample.noSuchProcess, false⟩]).2.1.filter ProcEvent.isFinished
      = [ProcEvent.finished true "Le processus s\x27est terminé.",
         ProcEvent.finished true "Surveillance terminée."] :=
  noSuchProcess_finished_emitted_twice 7 "p" 1 1 0 [] [] false (by intro it hit; simp at hit)

/-- C5: if `_setup` or `_run_loop` raises any exception other than the
process-disappeared case handled inside the loop, `start()` emits exactly one
`FINISHED` event, with `success = False` and a message containing the error,
the exception does not propagate (start returns), and `is_running()` is
`False` once `start()` has returned. -/
theorem exceptions_yield_single_failure_finished :
    (∀ (interval sd : ℚ) (hl n : ℕ) (trace : List CpuIter) (e : String),
      ((CpuCoresMonitor.init interval sd hl).start (.raised e) n trace).2.1
        = [CpuEvent.finished false ("Erreur inattendue: " ++ e)]
      ∧ ((CpuCoresMonitor.init interval sd hl).start (.raised e) n trace).2.2 = true
      ∧ ((CpuCoresMonitor.init interval sd hl).start (.raised e) n
          trace).1.isRunning = false)
    ∧ (∀ (pid : ℕ) (name : String) (ncpu : ℕ) (interval : ℚ) (hl : ℕ)
        (trace : List ProcIter) (e : String),
      ((ProcessCpuMonitor.init pid name ncpu interval hl).start (.raised e) trace).2.1
        = [ProcEvent.finished false ("Erreur inattendue: " ++ e)]
      ∧ ((ProcessCpuMonitor.init pid name ncpu interval hl).start (.raised e)
          trace).2.2 = true
      ∧ ((ProcessCpuMonitor.init pid name ncpu interval hl).start (.raised e)
          trace).1.isRunning = false)
    ∧ (∀ (pid : ℕ) (name : String) (ncpu : ℕ) (interval : ℚ) (hl : ℕ)
        (pre post : List ProcIter) (b : Bool) (e : String),
      (∀ it ∈ pre, plainIter it) →
      ((ProcessCpuMonitor.init pid name ncpu interval hl).start .ok
          (pre ++ ⟨ProcSample.otherError e, b⟩ :: post)).2.1.filter ProcEvent.isFinished
        = [ProcEvent.finished false ("Erreur inattendue: " ++ e)]
      ∧ ((ProcessCpuMonitor.init pid name ncpu interval hl).start .ok
          (pre ++ ⟨ProcSample.otherError e, b⟩ :: post)).2.2 = true
      ∧ ((ProcessCpuMonitor.init pid name ncpu interval hl).start .ok
          (pre ++ ⟨ProcSample.otherError e, b⟩ :: post)).1.isRunning = false) := by
  refine ⟨?_, ?_, ?_⟩
  · intro interval sd hl n trace e
    have hrf : (CpuCoresMonitor.init interval sd hl).isRunning = false := rfl
    refine ⟨?_, ?_, ?_⟩ <;> simp [CpuCoresMonitor.start, hrf]
  · intro pid name ncpu interval hl trace e
    have hrf : (ProcessCpuMonitor.init pid name ncpu interval hl).isRunning = false := rfl
    refine ⟨?_, ?_, ?_⟩ <;> simp [ProcessCpuMonitor.start, hrf]
  · intro pid name ncpu interval hl pre post b e hpre
    have hrf : (ProcessCpuMonitor.init pid name ncpu interval hl).isRunning = false := rfl
    have hrun : ({ ProcessCpuMonitor.init pid name ncpu interval hl with isRunning := true }
        : ProcessCpuMonitor).isRunning = true := rfl
    obtain ⟨m', h1, h2, h3, h4, h5, h6⟩ :=
      proc_runLoop_plain (⟨ProcSample.otherError e, b⟩ :: post) pre _ hrun hpre
    have herr := proc_runLoop_error m' h1 e b post
    have hres : (({ ProcessCpuMonitor.init pid name ncpu interval hl with
        isRunning := true } : ProcessCpuMonitor).runLoop
          (pre ++ ⟨ProcSample.otherError e, b⟩ :: post)).2.2 = .raised e := by
      rw [h5, herr]
    obtain ⟨hev, hcomp, hrunf⟩ := proc_start_ok_raised _ hrf _ e hres
    refine ⟨?_, hcomp, hrunf⟩
    have hfil : (({ ProcessCpuMonitor.init pid name ncpu interval hl with
        isRunning := true } : ProcessCpuMonitor).runLoop
          (pre ++ ⟨ProcSample.otherError e, b⟩ :: post)).2.1.filter ProcEvent.isFinished
        = [] := by
      rw [h6, herr]
      rfl
    rw [hev]
    simp only [List.filter_cons, List.filter_append, hfil]
    rfl

theorem exceptions_yield_single_failure_finished_witness :
    (((CpuCoresMonitor.init 1 1 0).start (.raised "boom") 1 []).2.1
        = [CpuEvent.finished false ("Erreur inattendue: " ++ "boom")]
      ∧ ((CpuCoresMonitor.init 1 1 0).start (.raised "boom") 1 []).2.2 = true
      ∧ ((CpuCoresMonitor.init 1 1 0).start (.raised "boom") 1 []).1.isRunning = false)
    ∧ (((ProcessCpuMonitor.init 7 "p" 1 1 0).start .ok
          [⟨ProcSample.otherError "denied", false⟩]).2.1.filter ProcEvent.isFinished
        = [ProcEvent.finished false ("Erreur inattendue: " ++ "denied")]
      ∧ ((ProcessCpuMonitor.init 7 "p" 1 1 0).start .ok
          [⟨ProcSample.otherError "denied", false⟩]).2.2 = true
      ∧ ((ProcessCpuMonitor.init 7 "p" 1 1 0).start .ok
          [⟨ProcSample.otherError "denied", false⟩]).1.isRunning = false) :=
  ⟨exceptions_yield_single_failure_finished.1 1 1 0 1 [] "boom",
   exceptions_yield_single_failure_finished.2.2 7 "p" 1 1 0 [] [] false "denied"
     (by intro it hit; simp at hit)⟩

/-- C6: stopping is purely cooperative and effective: with the running flag
`False` the loops emit nothing and return at once; if `stop()` lands during
the blocking wait of some pass, both run loops ignore everything after that
pass (no further `UPDATED` event), terminate there, and `start()` returns. -/
theorem stop_is_cooperative_and_effective :
    (∀ (m : CpuCoresMonitor) (trace : List CpuIter), m.isRunning = false →
      m.runLoop trace = (m, [], true))
    ∧ (∀ (pre : List CpuIter) (it : CpuIter) (post : List CpuIter)
        (m : CpuCoresMonitor), it.stopDuringSleep = true →
        m.runLoop (pre ++ it :: post) = m.runLoop (pre ++ [it])
        ∧ (m.runLoop (pre ++ [it])).2.2 = true)
    ∧ (∀ (m : ProcessCpuMonitor) (trace : List ProcIter), m.isRunning = false →
        m.runLoop trace = (m, [], .returned))
    ∧ (∀ (pre : List ProcIter) (it : ProcIter) (post : List ProcIter)
        (m : ProcessCpuMonitor), it.stopDuringCall = true →
        m.runLoop (pre ++ it :: post) = m.runLoop (pre ++ [it])
        ∧ (m.runLoop (pre ++ [it])).2.2 ≠ LoopResult.outOfTrace)
    ∧ (∀ (m : CpuCoresMonitor) (setup : SetupResult) (n : ℕ) (pre : List CpuIter)
        (it : CpuIter) (post : List CpuIter), it.stopDuringSleep = true →
        (m.start setup n (pre ++ it :: post)).2.2 = true)
    ∧ (∀ (m : ProcessCpuMonitor) (setup : SetupResult) (pre : List ProcIter)
        (it : ProcIter) (post : List ProcIter), it.stopDuringCall = true →
        (m.start setup (pre ++ it :: post)).2.2 = true) := by
  refine ⟨fun m trace h => cpu_runLoop_stopped m h trace,
    fun pre it post m h => cpu_runLoop_stop_cut pre it post h m,
    fun m trace h => proc_runLoop_stopped m h trace,
    fun pre it post m h => proc_runLoop_stop_cut pre it post h m, ?_, ?_⟩
  · intro m setup n pre it post hstop
    rw [CpuCoresMonitor.start]
    by_cases hrun : m.isRunning = true
    · simp [hrun]
    · have hrf : m.isRunning = false := by simpa using hrun
      simp only [hrf, Bool.false_eq_true, if_false]
      cases setup with
      | raised e => rfl
      | ok =>
        obtain ⟨e1, e2⟩ := cpu_runLoop_stop_cut pre it post hstop
          (({ m with isRunning := true } : CpuCoresMonitor).setup n)
        simp [e1, e2]
  · intro m setup pre it post hstop
    rw [ProcessCpuMonitor.start]
    by_cases hrun : m.isRunning = true
    · simp [hrun]
    · have hrf : m.isRunning = false := by simpa using hrun
      simp only [hrf, Bool.false_eq_true, if_false]
      cases setup with
      | raised e => rfl
      | ok =>
        obtain ⟨e1, e2⟩ := proc_runLoop_stop_cut pre it post hstop
          ({ m with isRunning := true } : ProcessCpuMonitor)
        rw [e1]
        cases hr : (({ m with isRunning := true } : ProcessCpuMonitor).runLoop
            (pre ++ [it])).2.2 with
        | outOfTrace => exact absurd hr e2
        | returned => simp [hr]
        | raised e => simp [hr]

theorem stop_is_cooperative_and_effective_witness :
    ((CpuCoresMonitor.init 1 1 0).runLoop
        ([] ++ (⟨true, 50, [50]⟩ : CpuIter) :: [⟨false, 60, [60]⟩])
      = (CpuCoresMonitor.init 1 1 0).runLoop ([] ++ [⟨true, 50, [50]⟩]))
    ∧ ((ProcessCpuMonitor.init 7 "p" 1 1 0).start .ok
        ([] ++ (⟨ProcSample.value 50, true⟩ : ProcIter) :: [⟨ProcSample.value 60, false⟩])).2.2
      = true :=
  ⟨(stop_is_cooperative_and_effective.2.1 [] ⟨true, 50, [50]⟩ [⟨false, 60, [60]⟩]
      (CpuCoresMonitor.init 1 1 0) rfl).1,
   stop_is_cooperative_and_effective.2.2.2.2.2 (ProcessCpuMonitor.init 7 "p" 1 1 0) .ok
      [] ⟨ProcSample.value 50, true⟩ [⟨ProcSample.value 60, false⟩] rfl⟩

/-- C7: smoothing is optional and disabling it is the identity: with
`smoothing_duration_s = 0` the window `max(1, round(0 / interval))` is `1`,
and every emitted smoothed value (global and per-core) equals the most recent
raw sample exactly. -/
theorem zero_smoothing_identity (interval : ℚ) (_hpos : 0 < interval)
    (hl numCores : ℕ) (trace : List CpuIter)
    (hlen : ∀ it ∈ trace, it.rawPerCpu.length = numCores) :
    smoothWindow 0 interval = 1
    ∧ ((CpuCoresMonitor.init interval 0 hl).start .ok numCores trace).2.1.filter
        CpuEvent.isUpdated = identityEvents trace := by
  have hW : smoothWindow 0 interval = 1 := by
    simp [smoothWindow, pythonRound]
  refine ⟨hW, ?_⟩
  rw [start_filter_spec interval 0 hl numCores trace hlen, hW]
  exact specEvents_one numCores trace hlen [] []

theorem zero_smoothing_identity_witness :
    smoothWindow 0 2 = 1
    ∧ ((CpuCoresMonitor.init 2 0 0).start .ok 1 [⟨false, 50, [50]⟩]).2.1.filter
        CpuEvent.isUpdated = identityEvents [⟨false, 50, [50]⟩] :=
  zero_smoothing_identity 2 (by norm_num) 0 1 [⟨false, 50, [50]⟩]
    (by intro it hit; rw [List.mem_singleton] at hit; subst hit; rfl)

/-- C9: with `history_length = c > 0`, immediately after `_setup` the history
already holds exactly `c` copies of the zero padding element
`(0.0, [0.0] * cpu_count)`, and each loop iteration keeps a full history at
exactly length `c` (an append to the full bounded deque evicts the oldest
entry), so the history length always equals its capacity. -/
theorem history_prefilled_to_capacity (interval sd : ℚ) (c n : ℕ) (hc : 0 < c) :
    ((CpuCoresMonitor.init interval sd c).setup n).history
      = some ⟨c, List.replicate c ((0 : ℚ), List.replicate n (0 : ℚ))⟩
    ∧ ∀ (m : CpuCoresMonitor) (it : CpuIter) (hd : BDeque (ℚ × List ℚ)),
        m.history = some hd → hd.maxlen = c → hd.data.length = c →
        ∃ hd', (m.loopIter it).1.history = some hd' ∧ hd'.maxlen = c
          ∧ hd'.data.length = c := by
  refine ⟨setup_history_full interval sd c n hc, ?_⟩
  intro m it hd hh hm hl
  by_cases hrun : m.isRunning = true
  · by_cases hstop : it.stopDuringSleep = true
    · have hst : (m.loopIter it).1 = { m with isRunning := false } := by
        simp [CpuCoresMonitor.loopIter, hrun, hstop]
      rw [hst]
      exact ⟨hd, hh, hm, hl⟩
    · have hstop' : it.stopDuringSleep = false := by simpa using hstop
      have hhist : (m.loopIter it).1.history
          = applyHistory m.history .UPDATED
              ((m.globalHistory.append it.rawGlobal).mean,
                (updatePerCpu m.perCpuHistory it.rawPerCpu).map BDeque.mean) := by
        simp [CpuCoresMonitor.loopIter, hrun, hstop']
      rw [hhist, hh]
      refine ⟨_, rfl, ?_, ?_⟩
      · rw [BDeque.append_maxlen]
        exact hm
      · rw [BDeque.append_length_full _ _ (by rw [hm, hl])]
        exact hm
  · have hrf : m.isRunning = false := by simpa using hrun
    have hst : (m.loopIter it).1 = m := by
      simp [CpuCoresMonitor.loopIter, hrf]
    rw [hst]
    exact ⟨hd, hh, hm, hl⟩

theorem history_prefilled_to_capacity_witness :
    ((CpuCoresMonitor.init 1 1 1).setup 1).history
      = some ⟨1, List.replicate 1 ((0 : ℚ), List.replicate 1 (0 : ℚ))⟩
    ∧ ∃ hd', (((CpuCoresMonitor.init 1 1 1).setup 1).loopIter
        ⟨false, 50, [50]⟩).1.history = some hd' ∧ hd'.maxlen = 1
      ∧ hd'.data.length = 1 :=
  ⟨(history_prefilled_to_capacity 1 1 1 1 (by norm_num)).1,
   (history_prefilled_to_capacity 1 1 1 1 (by norm_num)).2
      ((CpuCoresMonitor.init 1 1 1).setup 1) ⟨false, 50, [50]⟩
      ⟨1, List.replicate 1 ((0 : ℚ), List.replicate 1 (0 : ℚ))⟩
      (history_prefilled_to_capacity 1 1 1 1 (by norm_num)).1 rfl rfl⟩

/-- C10: `BaseMonitor.add_handler_on` accepts event names case-insensitively
and fails atomically: when the upper-cased string names a `MonitorEvent`
member the handler is appended to exactly that event's list and to no other;
otherwise a `ValueError` is raised and every handler list is unchanged. -/
theorem add_handler_case_insensitive_atomic :
    ∀ (hs : MonitorEvent → List ℕ) (s : String) (h : ℕ),
      (∀ ev, MonitorEvent.fromName (asciiUpper s) = some ev →
        (addHandlerOn hs s h).2 = none
        ∧ (addHandlerOn hs s h).1 ev = hs ev ++ [h]
        ∧ ∀ e, e ≠ ev → (addHandlerOn hs s h).1 e = hs e)
      ∧ (MonitorEvent.fromName (asciiUpper s) = none →
        (addHandlerOn hs s h).2.isSome = true ∧ (addHandlerOn hs s h).1 = hs) := by
  intro hs s h
  constructor
  · intro ev hev
    refine ⟨?_, ?_, ?_⟩
    · simp [addHandlerOn, hev]
    · simp [addHandlerOn, hev]
    · intro e he
      simp [addHandlerOn, hev, he]
  · intro hnone
    refine ⟨?_, ?_⟩ <;> simp [addHandlerOn, hnone]

theorem add_handler_case_insensitive_atomic_witness :
    ((addHandlerOn (fun _ => []) "updated" 5).2 = none
      ∧ (addHandlerOn (fun _ => []) "updated" 5).1 MonitorEvent.UPDATED = [] ++ [5]
      ∧ ∀ e, e ≠ MonitorEvent.UPDATED →
          (addHandlerOn (fun _ => ([] : List ℕ)) "updated" 5).1 e = [])
    ∧ ((addHandlerOn (fun _ => ([] : List ℕ)) "bogus" 5).2.isSome = true
      ∧ (addHandlerOn (fun _ => ([] : List ℕ)) "bogus" 5).1 = fun _ => []) :=
  ⟨(add_handler_case_insensitive_atomic (fun _ => []) "updated" 5).1
      MonitorEvent.UPDATED (by rfl),
   (add_handler_case_insensitive_atomic (fun _ => []) "bogus" 5).2 (by rfl)⟩

end PyUtils
